import Mathlib

/-!
Shallow embedding of the source-ingestion and retrieval pipeline of the
rag-system repository, together with theorems settling the frozen claims
about it.  Python functions are translated into executable Lean functions;
Python values appearing in vector-store payloads and database rows are
modelled by the inductive type `PyVal` below, and effectful functions are
modelled by returning an explicit trace of the calls they perform.
Floating-point scores are modelled by rationals: the code only negates and
compares scores, and both operations are exact on IEEE floats, so the
rational model is faithful for every property stated here.
-/

namespace RagSystem

/-- Model of a Python value as it may appear in a vector-store payload or a
database row: `none`, booleans, integers, strings, lists, or an opaque
object carrying its string rendering.  Floats are not included: no claim
depends on float formatting. -/
inductive PyVal where
  | vnone : PyVal
  | vbool (b : Bool) : PyVal
  | vint (i : Int) : PyVal
  | vstr (s : String) : PyVal
  | vlist (xs : List PyVal) : PyVal
  | vother (repr : String) : PyVal

/-- Python truthiness for the modelled values: `None`, `False`, `0`, the
empty string and the empty list are falsy; opaque objects are truthy. -/
def pyTruthy : PyVal → Bool
  | .vnone => false
  | .vbool b => b
  | .vint i => i != 0
  | .vstr s => s != ""
  | .vlist xs => !xs.isEmpty
  | .vother _ => true

/-- Single-quote character, used by the Python repr of strings. -/
def sq : String := String.singleton (Char.ofNat 39)

mutual

/-- Model of Python `str(value)` on the modelled values. -/
def pyStr : PyVal → String
  | .vnone => "None"
  | .vbool b => if b then "True" else "False"
  | .vint i => toString i
  | .vstr s => s
  | .vlist xs => "[" ++ String.intercalate ", " (pyReprList xs) ++ "]"
  | .vother r => r

/-- Model of Python `repr(value)`: like `str` except that strings are
surrounded by single quotes (escaping inside the string is not modelled). -/
def pyRepr : PyVal → String
  | .vstr s => sq ++ s ++ sq
  | v => pyStr v

/-- Helper mapping `pyRepr` over a list (mutual with `pyStr`). -/
def pyReprList : List PyVal → List String
  | [] => []
  | v :: vs => pyRepr v :: pyReprList vs

end

/-- Lookup in a Python dict modelled as an association list built without
duplicate keys: first match wins. -/
def pyGet (p : List (String × PyVal)) (k : String) : Option PyVal :=
  match p.find? (fun e => e.1 == k) with
  | some e => some e.2
  | none => none

/-- Model of the Python string slice `s[:n]` (the first `n` characters). -/
def pySlice (s : String) (n : Nat) : String :=
  ((s.toList.take n).asString)

/-- Model of Python `str.strip()`: drop whitespace from both ends. -/
def pyStrip (s : String) : String :=
  (((s.toList.dropWhile Char.isWhitespace).reverse.dropWhile
    Char.isWhitespace).reverse).asString

/-- Supported vector-store distance metrics (qdrant `models.Distance`). -/
inductive Distance where
  | cosine | dot | euclid | manhattan
deriving DecidableEq, Repr

/-- ASCII upper-casing of a string (model of Python `str.upper` on the
ASCII configuration strings involved). -/
def pyUpper (s : String) : String :=
  (s.toList.map Char.toUpper).asString

/-- Embedding of `_resolve_distance` (src/ai/vector_store.py): the configured
distance string is upper-cased and looked up in the four-entry map, with
`COSINE` as the default for unknown values. -/
def resolve_distance (configured : String) : Distance :=
  let key := pyUpper configured
  if key = "COSINE" then .cosine
  else if key = "DOT" then .dot
  else if key = "EUCLID" then .euclid
  else if key = "MANHATTAN" then .manhattan
  else .cosine

/-- Embedding of `relevance_score` (src/ai/vector_store.py): negate the raw
score when the resolved distance is Euclid or Manhattan, otherwise return it
unchanged.  Scores are modelled as rationals. -/
def relevance_score (configured : String) (score : ℚ) : ℚ :=
  if resolve_distance configured = .euclid ∨ resolve_distance configured = .manhattan
  then -score
  else score

/-! ## Identifier validation (src/db/connectors/common.py, constants/db.py) -/

/-- Modelled from the spec: the module `constants/db.py` defining
`IDENTIFIER_PATTERN` is not part of the provided sources; the spec describes
the pattern as "a strict identifier grammar (letters, digits, underscore,
not starting with a digit)".  A character is valid inside an identifier when
it is an ASCII letter, an ASCII digit, or an underscore. -/
def isIdentChar (c : Char) : Bool :=
  c.isAlpha || c.isDigit || c == '_'

/-- Modelled from the spec: a string matches `IDENTIFIER_PATTERN` (full
match) when it is non-empty, every character is a letter, digit or
underscore, and the first character is not a digit. -/
def isValidIdentifier (s : String) : Bool :=
  match s.toList with
  | [] => false
  | c :: cs => (c.isAlpha || c == '_') && cs.all isIdentChar

/-- Effectful map over a list in the `Except` monad, failing at the first
failing element — the evaluation order of a Python list comprehension whose
body may raise. -/
def collectExcept {α β : Type} (f : α → Except String β) :
    List α → Except String (List β)
  | [] => .ok []
  | a :: l =>
    match f a with
    | .error e => .error e
    | .ok b =>
      match collectExcept f l with
      | .error e => .error e
      | .ok bs => .ok (b :: bs)

/-- Embedding of `validate_identifier` (src/db/connectors/common.py):
return the value unchanged when it matches the identifier pattern,
otherwise fail with an invalid-identifier error.  The Python message quotes
are elided. -/
def validate_identifier (value : String) (field_name : String) :
    Except String String :=
  if isValidIdentifier value then .ok value
  else .error ("Invalid " ++ field_name ++ ": " ++ value)

/-- Embedding of `_quote_postgres_identifier` (src/db/connectors/postgres.py):
validate, then surround with double quotes. -/
def quote_postgres_identifier (value : String) : Except String String :=
  match validate_identifier value "identifier" with
  | .error e => .error e
  | .ok v => .ok ("\"" ++ v ++ "\"")

/-- Validation-and-quoting of one projected column, as performed per element
of the `validated_columns` comprehension in `stream_postgres_rows`. -/
def validate_and_quote_column (column : String) : Except String String :=
  match validate_identifier column "column" with
  | .error e => .error e
  | .ok v => quote_postgres_identifier v

/-- Embedding of the query construction in `stream_postgres_rows`
(src/db/connectors/postgres.py lines 137-149): every column, the schema and
the table are validated and quoted, and the query text carries the bound
parameter placeholders for LIMIT and OFFSET. -/
def build_postgres_query (schema_name table_name : String)
    (columns : List String) : Except String String :=
  match collectExcept validate_and_quote_column columns with
  | .error e => .error e
  | .ok validated_columns =>
    match validate_identifier schema_name "schema" with
    | .error e => .error e
    | .ok sv =>
      match quote_postgres_identifier sv with
      | .error e => .error e
      | .ok quoted_schema =>
        match validate_identifier table_name "table" with
        | .error e => .error e
        | .ok tv =>
          match quote_postgres_identifier tv with
          | .error e => .error e
          | .ok quoted_table =>
            .ok ("SELECT " ++ String.intercalate ", " validated_columns ++
              " FROM " ++ quoted_schema ++ "." ++ quoted_table ++
              " LIMIT $1 OFFSET $2")

/-! ## Row streaming pagination (src/db/connectors/postgres.py lines 146-174,
src/db/connectors/clickhouse.py lines 136-170) -/

/-- Semantics of `SELECT ... LIMIT limit OFFSET offset` over a table modelled
as the ordered list of its rows. -/
def fetchRows {ρ : Type} (table : List ρ) (limit offset : Nat) : List ρ :=
  (table.drop offset).take limit

/-- Fuel-driven embedding of the pagination loop of `stream_postgres_rows` /
`stream_clickhouse_rows`: starting from the given offset, repeatedly fetch a
batch with the bound parameters `(batch_size, offset)`, record the pair of
the offset used and the rows fetched, stop after recording the first empty
batch, and otherwise advance the offset by the actual row count of the
batch.  The fuel argument only serves termination; `stream_rows` below
supplies enough fuel for the loop to always reach its empty batch. -/
def streamAux {ρ : Type} (table : List ρ) (batch_size : Nat) :
    Nat → Nat → List (Nat × List ρ)
  | _, 0 => []
  | offset, fuel + 1 =>
    let rows := fetchRows table batch_size offset
    if rows.isEmpty then [(offset, rows)]
    else (offset, rows) :: streamAux table batch_size (offset + rows.length) fuel

/-- Embedding of the streaming loop of `stream_postgres_rows` (and the
identical loop of `stream_clickhouse_rows`): the trace of every fetch
performed, as (offset, batch) pairs, starting at offset 0. -/
def stream_rows {ρ : Type} (table : List ρ) (batch_size : Nat) :
    List (Nat × List ρ) :=
  streamAux table batch_size 0 (table.length + 1)

/-- Shape of a fetch trace, as a function of the table length and the batch
size only: the (offset, batch length) pairs the loop produces. -/
def traceSpecAux (tableLen batch_size : Nat) : Nat → Nat → List (Nat × Nat)
  | _, 0 => []
  | offset, fuel + 1 =>
    let k := min batch_size (tableLen - offset)
    if k = 0 then [(offset, 0)]
    else (offset, k) :: traceSpecAux tableLen batch_size (offset + k) fuel

/-- Offsets and batch sizes of the full fetch trace. -/
def traceSpec (tableLen batch_size : Nat) : List (Nat × Nat) :=
  traceSpecAux tableLen batch_size 0 (tableLen + 1)

/-! ## Vector store upsert (src/ai/vector_store.py lines 113-149) -/

/-- Effects that `upsert_chunks` may perform against the embedder and the
vector store, in order. -/
inductive VsEffect where
  | ensureCollection (name : String) : VsEffect
  | embed (texts : List String) : VsEffect
  | upsertPoints (collection : String)
      (points : List (String × List (String × PyVal))) : VsEffect

/-- Model of `_normalize_point_id` (src/ai/vector_store.py): the uuid5 hash
of the logical key under the configured namespace, modelled as an opaque
injective tagging of the key. -/
def normalize_point_id (point_id : String) : String :=
  "uuid5:" ++ point_id

/-- Embedding of `upsert_chunks` (src/ai/vector_store.py): reject unequal
input lengths before any effect, return without any effect on empty input,
and otherwise ensure the collection, embed the texts and upsert one point
per chunk whose payload is the document text merged with the given payload. -/
def upsert_chunks (collection : String) (ids : List String)
    (texts : List String) (payloads : List (List (String × PyVal))) :
    Except String (List VsEffect) :=
  if ids.length ≠ texts.length ∨ ids.length ≠ payloads.length then
    .error "ids, texts and payloads must have the same length"
  else if ids.length = 0 then
    .ok []
  else
    let points := (ids.zip (texts.zip payloads)).map fun e =>
      (normalize_point_id e.1, ("document", PyVal.vstr e.2.1) :: e.2.2)
    .ok [VsEffect.ensureCollection collection, VsEffect.embed texts,
      VsEffect.upsertPoints collection points]

/-! ## DB source indexing (src/flows/source_processing/indexing.py) -/

/-- Modelled from the spec: `constants/summary.py` defining
`DB_SUMMARY_SAMPLE_LIMIT` is not part of the provided sources; the spec gives
"a fixed sample count (e.g. 50)". -/
def DB_SUMMARY_SAMPLE_LIMIT : Nat := 50

/-- Modelled from the spec: `constants/summary.py` defining
`DB_SUMMARY_TEXT_PREVIEW_LENGTH` is not part of the provided sources; the
spec only says the preview is "truncated to a fixed length", so a
representative fixed value is used. -/
def DB_SUMMARY_TEXT_PREVIEW_LENGTH : Nat := 200

/-- Relational mapping of a DB-backed source (db/models `SourceDb` fields
used by indexing). -/
structure SourceDb where
  schema_name : String
  table_name : String
  id_field : String
  search_field : String
  filter_fields : List String

/-- Scalar test used by `_normalize_payload_value`: Python
`isinstance(value, (str, int, float, bool))` on the modelled values. -/
def isScalar : PyVal → Bool
  | .vbool _ => true
  | .vint _ => true
  | .vstr _ => true
  | _ => false

/-- Embedding of `_normalize_payload_value`
(src/flows/source_processing/indexing.py lines 30-45): `None` and scalars
pass through, list elements that are not scalars are replaced by their
string rendering, and any other value is replaced by its string rendering. -/
def normalize_payload_value : PyVal → PyVal
  | .vnone => .vnone
  | .vbool b => .vbool b
  | .vint i => .vint i
  | .vstr s => .vstr s
  | .vlist xs => .vlist (xs.map fun item =>
      if isScalar item then item else .vstr (pyStr item))
  | .vother r => .vstr (pyStr (.vother r))

/-- Database row modelled as a Python dict from column name to value. -/
abbrev Row := List (String × PyVal)

/-- Model of Python `row.get(field)`: a missing key reads as `None`. -/
def rowGetD (row : Row) (field : String) : PyVal :=
  match pyGet row field with
  | none => .vnone
  | some v => v

/-- Model of Python dict assignment `d[k] = v` on an insertion-ordered
dict: when the key already exists its value is replaced in place, otherwise
the pair is appended. -/
def pyAssign (p : List (String × PyVal)) (k : String) (v : PyVal) :
    List (String × PyVal) :=
  if p.any (fun e => e.1 == k) then
    p.map fun e => if e.1 == k then (k, v) else e
  else p ++ [(k, v)]

/-- Embedding of `_prepare_db_point`
(src/flows/source_processing/indexing.py lines 87-117): skip the row when
the id field is missing or `None`; render the search field value, with
falsy values replaced by the empty string first, and skip when the stripped
text is empty; otherwise produce the point id `db:<source_id>:<row_id>`,
the text, the payload and the row id. -/
def prepare_db_point (source_id : Int) (source_name : String)
    (source_type : String) (source_db : SourceDb) (row : Row) :
    Option (String × String × List (String × PyVal) × String) :=
  match rowGetD row source_db.id_field with
  | .vnone => none
  | row_id_value =>
    let text := pyStrip (pyStr
      (if pyTruthy (rowGetD row source_db.search_field) then
        rowGetD row source_db.search_field
      else .vstr ""))
    if text = "" then none
    else
      let row_id := pyStr row_id_value
      let payload : List (String × PyVal) :=
        source_db.filter_fields.foldl
          (fun acc filter_field =>
            pyAssign acc filter_field
              (normalize_payload_value (rowGetD row filter_field)))
          [("source_id", .vint source_id),
           ("source_name", .vstr source_name),
           ("source_type", .vstr source_type),
           ("source_backend", .vstr "db"),
           ("schema_name", .vstr source_db.schema_name),
           ("table_name", .vstr source_db.table_name),
           ("row_id", .vstr row_id)]
      let point_id := "db:" ++ toString source_id ++ ":" ++ row_id
      some (point_id, text, payload, row_id)

/-- Embedding of `_build_db_summary_header`
(src/flows/source_processing/indexing.py lines 75-84). -/
def build_db_summary_header (source_name : String) (source_db : SourceDb) :
    String :=
  let filter_fields :=
    if source_db.filter_fields.isEmpty then "-"
    else String.intercalate ", " source_db.filter_fields
  "Source " ++ source_name ++ ": table " ++ source_db.schema_name ++ "." ++
    source_db.table_name ++ "; search_field=" ++ source_db.search_field ++
    "; filter_fields=" ++ filter_fields

/-- One step of the digest accumulation inside `_index_db_source`
(src/flows/source_processing/indexing.py lines 186-205): a prepared row
appends its `"row <id>: <preview>"` line while fewer than
`DB_SUMMARY_SAMPLE_LIMIT` lines (header included) have accumulated. -/
def digestStep (source_id : Int) (source_name : String)
    (source_type : String) (source_db : SourceDb)
    (acc : List String) (row : Row) : List String :=
  match prepare_db_point source_id source_name source_type source_db row with
  | none => acc
  | some (_, text, _, row_id) =>
    if acc.length < DB_SUMMARY_SAMPLE_LIMIT then
      acc ++ ["row " ++ row_id ++ ": " ++
        pySlice text DB_SUMMARY_TEXT_PREVIEW_LENGTH]
    else acc

/-- Embedding of the digest built by `_index_db_source`
(src/flows/source_processing/indexing.py lines 177-218): the header line
followed by the sampled row lines accumulated over all streamed batches. -/
def db_digest (source_id : Int) (source_name : String) (source_type : String)
    (source_db : SourceDb) (batches : List (List Row)) : List String :=
  batches.foldl
    (fun acc batch =>
      batch.foldl (digestStep source_id source_name source_type source_db) acc)
    [build_db_summary_header source_name source_db]

/-! ## Retrieval engine (src/ai/tools/retrieve.py) -/

/-- Scored point returned by a vector-store search: the raw engine score and
the optional payload dict. -/
structure ScoredPoint where
  score : ℚ
  payload : Option (List (String × PyVal))

/-- Clamping bounds of `_normalize_n_results` (src/ai/tools/retrieve.py
lines 14-15). -/
def MIN_RESULTS : Int := 1

/-- Upper clamping bound of `_normalize_n_results`. -/
def MAX_RESULTS : Int := 20

/-- Embedding of `_normalize_n_results` (src/ai/tools/retrieve.py lines
75-80): the default passes through unclamped, an explicit request is clamped
into the `[MIN_RESULTS, MAX_RESULTS]` range. -/
def normalize_n_results (requested : Option Int) (default : Int) : Int :=
  match requested with
  | none => default
  | some r => min (max r MIN_RESULTS) MAX_RESULTS

/-- Numeric value of an all-digit string. -/
def digitsToNat (s : String) : Nat :=
  s.toList.foldl (fun a c => 10 * a + (c.toNat - 48)) 0

/-- Embedding of `_parse_source_id` (src/ai/tools/retrieve.py lines 18-38):
`None` or empty payloads parse to nothing; an int value is returned as is
(Python booleans are int instances and read as 0 or 1); an all-digit
string is converted; anything else parses to nothing.  Python `isdigit` is
modelled on ASCII digits. -/
def parse_source_id (payload : Option (List (String × PyVal))) : Option Int :=
  match payload with
  | none => none
  | some pl =>
    if pl.isEmpty then none
    else
      match pyGet pl "source_id" with
      | some (.vbool b) => some (if b then 1 else 0)
      | some (.vint i) => some i
      | some (.vstr s) =>
        if !s.isEmpty && s.toList.all Char.isDigit then
          some (Int.ofNat (digitsToNat s))
        else none
      | _ => none

/-- Loop of `_select_source_ids` (src/ai/tools/retrieve.py lines 57-72):
walk the points in order, skip unparseable, out-of-scope and duplicate ids,
append each kept id, and stop as soon as `n_sources` ids are selected. -/
def selectAux (allowed : List Int) (n_sources : Int) :
    List Int → List ScoredPoint → List Int
  | selected, [] => selected
  | selected, point :: rest =>
    match parse_source_id point.payload with
    | none => selectAux allowed n_sources selected rest
    | some source_id =>
      if source_id ∉ allowed ∨ source_id ∈ selected then
        selectAux allowed n_sources selected rest
      else
        let selected2 := selected ++ [source_id]
        if n_sources ≤ (selected2.length : Int) then selected2
        else selectAux allowed n_sources selected2 rest

/-- Embedding of `_select_source_ids` (src/ai/tools/retrieve.py). -/
def select_source_ids (source_level_results : List ScoredPoint)
    (allowed_source_ids : List Int) (n_sources : Int) : List Int :=
  selectAux allowed_source_ids n_sources [] source_level_results

/-- Filter specification value supplied by the caller of `retrieve`
(a JSON-like Python `Any`). -/
inductive FilterVal where
  | fnone : FilterVal
  | fbool (b : Bool) : FilterVal
  | fint (i : Int) : FilterVal
  | fstr (s : String) : FilterVal
  | flist (xs : List FilterVal) : FilterVal
  | fdict (entries : List (String × FilterVal)) : FilterVal

/-- Lookup in a filter dict (first match wins, mirroring Python dict get). -/
def fGet (entries : List (String × FilterVal)) (k : String) : Option FilterVal :=
  match entries.find? (fun e => e.1 == k) with
  | some e => some e.2
  | none => none

/-- Key membership in a filter dict. -/
def fHasKey (entries : List (String × FilterVal)) (k : String) : Bool :=
  (entries.find? (fun e => e.1 == k)).isSome

/-- Validated qdrant field condition built by `_build_filter_condition`. -/
inductive FieldCondition where
  | matchValue (key : String) (value : FilterVal) : FieldCondition
  | matchAny (key : String) (values : List FilterVal) : FieldCondition
  | range (key : String) (gt gte lt lte : Option FilterVal) : FieldCondition

/-- Validated qdrant filter: the conjunction (`must`) of its conditions. -/
structure QFilter where
  must : List FieldCondition

/-- Embedding of `_build_filter_condition` (src/ai/tools/retrieve.py lines
106-156): reject fields outside the allowed set; a non-dict spec is an
equality match; a dict is tried as `eq`, then `in` (demanding a non-empty
list), then `range` (demanding at least one bound); every other shape
fails.  The Python message quotes around names are elided. -/
def build_filter_condition (field_name : String) (raw_spec : FilterVal)
    (allowed_fields : List String) : Except String FieldCondition :=
  if field_name ∉ allowed_fields then
    .error ("Filter field " ++ field_name ++ " is not allowed")
  else
    match raw_spec with
    | .fdict entries =>
      match fGet entries "eq" with
      | some v => .ok (.matchValue field_name v)
      | none =>
        if fHasKey entries "in" then
          match fGet entries "in" with
          | some (.flist vs) =>
            if vs.isEmpty then
              .error ("Filter " ++ field_name ++ ".in must be non-empty list")
            else .ok (.matchAny field_name vs)
          | _ =>
            .error ("Filter " ++ field_name ++ ".in must be non-empty list")
        else
          match fGet entries "range" with
          | some (.fdict bounds) =>
            if fHasKey bounds "gt" || fHasKey bounds "gte" ||
                fHasKey bounds "lt" || fHasKey bounds "lte" then
              .ok (.range field_name (fGet bounds "gt") (fGet bounds "gte")
                (fGet bounds "lt") (fGet bounds "lte"))
            else
              .error ("Filter " ++ field_name ++
                ".range must contain gt/gte/lt/lte")
          | _ =>
            .error ("Unsupported filter operator for field " ++ field_name)
    | _ => .ok (.matchValue field_name raw_spec)

/-- Embedding of `_build_query_filter` (src/ai/tools/retrieve.py lines
83-103): nothing to build for a missing or empty filter map; otherwise every
entry must produce a condition (the first failure aborts the whole build)
and the accepted conditions are conjoined in one `must` list. -/
def build_query_filter (filters : Option (List (String × FilterVal)))
    (allowed_fields : List String) : Except String (Option QFilter) :=
  match filters with
  | none => .ok none
  | some fl =>
    if fl.isEmpty then .ok none
    else
      match collectExcept
        (fun e => build_filter_condition e.1 e.2 allowed_fields) fl with
      | .error e => .error e
      | .ok conditions =>
        if conditions.isEmpty then .ok none
        else .ok (some ⟨conditions⟩)

/-- Collected passage: normalized relevance score, owning source id,
document text and optional row identifier. -/
structure Chunk where
  score : ℚ
  source_id : Int
  document : String
  row_id : Option String

/-- Record of one invocation of `search` (src/ai/vector_store.py): the
collection queried and the limit passed. -/
structure SearchCall where
  collection : String
  limit : Int
deriving DecidableEq, Repr

/-- Environment of one `retrieve` call: the configured distance metric and
index collection name, which collections exist, and the engine answers for
the stage-1 query and for each selected source's own collection. -/
structure RetrieveEnv where
  distance : String
  sources_index_collection : String
  collection_exists : String → Bool
  stage1_results : List ScoredPoint
  source_collection : Int → Option String
  source_filter_fields : Int → Option (List String)
  chunk_results : Int → List ScoredPoint

/-- Result of `search` as seen by callers: empty when the limit is not
positive or the collection does not exist, otherwise the engine results. -/
def searchResults (exists_ : Bool) (raw : List ScoredPoint) (limit : Int) :
    List ScoredPoint :=
  if limit ≤ 0 then [] else if exists_ then raw else []

/-- Points of one stage-2 search turned into ranked chunks
(src/ai/tools/retrieve.py lines 198-217): keep points whose payload holds a
non-blank string document, normalize the score, and render the row id when
present and not `None`. -/
def chunksOfPoints (distance : String) (source_id : Int)
    (points : List ScoredPoint) : List Chunk :=
  points.filterMap fun point =>
    match point.payload with
    | none => none
    | some pl =>
      match pyGet pl "document" with
      | some (.vstr s) =>
        if pyStrip s = "" then none
        else
          some { score := relevance_score distance point.score,
                 source_id := source_id, document := s,
                 row_id :=
                   match pyGet pl "row_id" with
                   | none => none
                   | some .vnone => none
                   | some v => some (pyStr v) }
      | _ => none

/-- Filter construction for one stage-2 source (src/ai/tools/retrieve.py
lines 188-196): a query filter is only built when the source has a DB
mapping and a non-empty filter map was supplied. -/
def stage2_filter (env : RetrieveEnv)
    (filters : Option (List (String × FilterVal))) (source_id : Int) :
    Except String (Option QFilter) :=
  match env.source_filter_fields source_id, filters with
  | some ff, some fl =>
    if fl.isEmpty then .ok none else build_query_filter (some fl) ff
  | _, _ => .ok none

/-- Loop of `_collect_ranked_chunks` (src/ai/tools/retrieve.py lines
179-219) over the selected source ids, also recording every `search`
invocation: unknown sources are skipped; a filter map combined with a DB
mapping is validated (a validation failure aborts the whole collection);
each source's collection is searched with the effective result limit. -/
def collectAux (env : RetrieveEnv)
    (filters : Option (List (String × FilterVal))) (n_results : Int) :
    List Int → List Chunk → List SearchCall →
    Except String (List Chunk) × List SearchCall
  | [], acc, calls => (.ok acc, calls)
  | source_id :: rest, acc, calls =>
    match env.source_collection source_id with
    | none => collectAux env filters n_results rest acc calls
    | some collection =>
      match stage2_filter env filters source_id with
      | .error e => (.error e, calls)
      | .ok _ =>
        let calls2 := calls ++ [⟨collection, n_results⟩]
        let points := searchResults (env.collection_exists collection)
          (env.chunk_results source_id) n_results
        collectAux env filters n_results rest
          (acc ++ chunksOfPoints env.distance source_id points) calls2

/-- Embedding of `_collect_ranked_chunks` together with its search trace. -/
def collect_ranked_chunks (env : RetrieveEnv)
    (filters : Option (List (String × FilterVal)))
    (selected_source_ids : List Int) (n_results : Int) :
    Except String (List Chunk) × List SearchCall :=
  collectAux env filters n_results selected_source_ids [] []

/-- Stable insertion of a chunk into a score-descending list: the chunk goes
after every chunk whose score is at least as large. -/
def insertDesc (c : Chunk) : List Chunk → List Chunk
  | [] => [c]
  | x :: xs => if x.score < c.score then c :: x :: xs else x :: insertDesc c xs

/-- Model of Python `list.sort(key=score, reverse=True)`: the stable
score-descending ordering, computed by stable insertion. -/
def pySortByScoreDesc (chunks : List Chunk) : List Chunk :=
  chunks.foldl (fun acc c => insertDesc c acc) []

/-- Rendering of one kept passage (src/ai/tools/retrieve.py lines 245-248). -/
def render_chunk (c : Chunk) : String :=
  match c.row_id with
  | none => "[source:" ++ toString c.source_id ++ "] " ++ c.document
  | some rid =>
    "[source:" ++ toString c.source_id ++ " row:" ++ rid ++ "] " ++ c.document

/-- Loop of `_format_ranked_chunks` (src/ai/tools/retrieve.py lines
240-251): walk the sorted chunks, skip documents already seen, render and
keep the others, and stop as soon as `n_results` passages are kept. -/
def formatAux (n_results : Int) :
    List Chunk → List String → List String → List String
  | [], kept, _ => kept
  | c :: rest, kept, seen =>
    if c.document ∈ seen then formatAux n_results rest kept seen
    else
      let seen2 := c.document :: seen
      let kept2 := kept ++ [render_chunk c]
      if n_results ≤ (kept2.length : Int) then kept2
      else formatAux n_results rest kept2 seen2

/-- Embedding of `_format_ranked_chunks` (src/ai/tools/retrieve.py lines
222-253). -/
def format_ranked_chunks (ranked_chunks : List Chunk) (n_results : Int) :
    String :=
  String.intercalate "\n\n"
    (formatAux n_results (pySortByScoreDesc ranked_chunks) [] [])

/-- Per-query retrieve context as used by `retrieve` and constructed in
src/usecases/chat.py: the explicitly scoped source ids (empty for none) and
the configured result and source fan-out counts. -/
structure RC where
  source_ids : List Int
  n_results : Int
  n_sources : Int

/-- The effective allowed source ids of a `retrieve` call
(src/ai/tools/retrieve.py line 278): the scoped ids, or the session ids when
no scoped ids were given (Python `or`). -/
def retrieve_allowed (rc : RC) (session_source_ids : List Int) : List Int :=
  if rc.source_ids.isEmpty then session_source_ids else rc.source_ids

/-- The stage-1 search limit (src/ai/tools/retrieve.py line 289). -/
def retrieve_limit (rc : RC) : Int :=
  max (rc.n_sources * 4) rc.n_sources

/-- The stage-1 search invocation record. -/
def retrieve_stage1_call (env : RetrieveEnv) (rc : RC) : SearchCall :=
  ⟨env.sources_index_collection, retrieve_limit rc⟩

/-- The stage-1 search results as seen by `retrieve`. -/
def retrieve_stage1_results (env : RetrieveEnv) (rc : RC) :
    List ScoredPoint :=
  searchResults (env.collection_exists env.sources_index_collection)
    env.stage1_results (retrieve_limit rc)

/-- The stage-1 selected source ids of a `retrieve` call
(src/ai/tools/retrieve.py lines 291-295). -/
def retrieve_selected (env : RetrieveEnv) (rc : RC)
    (session_source_ids : List Int) : List Int :=
  select_source_ids (retrieve_stage1_results env rc)
    (retrieve_allowed rc session_source_ids) rc.n_sources

/-- Embedding of `retrieve` (src/ai/tools/retrieve.py lines 256-315),
returning the reply string together with the trace of every `search`
invocation performed. -/
def retrieveM (env : RetrieveEnv) (retrieve_context : Option RC)
    (session_source_ids : List Int)
    (filters : Option (List (String × FilterVal)))
    (n_results_req : Option Int) : String × List SearchCall :=
  match retrieve_context with
  | none => ("Retrieve tool is not configured for this run", [])
  | some rc =>
    if (retrieve_allowed rc session_source_ids).isEmpty then
      ("No sources attached to this session", [])
    else if (retrieve_selected env rc session_source_ids).isEmpty then
      ("No data results found", [retrieve_stage1_call env rc])
    else
      match collectAux env filters
        (normalize_n_results n_results_req rc.n_results)
        (retrieve_selected env rc session_source_ids) []
        [retrieve_stage1_call env rc] with
      | (.error e, calls) => ("Invalid retrieve filters: " ++ e, calls)
      | (.ok chunks, calls) =>
        if chunks.isEmpty then ("No data results found", calls)
        else
          (format_ranked_chunks chunks
            (normalize_n_results n_results_req rc.n_results), calls)

/-! ## Spec-side definitions

These definitions follow the wording of the specification (not the code);
the refinement theorems below compare them with the embedded code. -/

/-- Order-preserving removal of duplicates, keeping the first occurrence,
relative to an initial set of already-seen elements. -/
def dedupKeepFirstAux {α : Type} [DecidableEq α] (seen : List α) :
    List α → List α
  | [] => []
  | a :: l =>
    if a ∈ seen then dedupKeepFirstAux seen l
    else a :: dedupKeepFirstAux (a :: seen) l

/-- Order-preserving removal of duplicates, keeping the first occurrence. -/
def dedupKeepFirst {α : Type} [DecidableEq α] (l : List α) : List α :=
  dedupKeepFirstAux [] l

/-- Spec-side stage-1 selection, from the claim wording: walking the results
in score order, the selected ids are the first `n_sources` distinct ids that
parse from the payload and belong to the allowed set. -/
def spec_select (results : List ScoredPoint) (allowed : List Int)
    (n_sources : Int) : List Int :=
  (dedupKeepFirst
    ((results.filterMap fun p => parse_source_id p.payload).filter
      (· ∈ allowed))).take n_sources.toNat

/-- Order-preserving removal of chunks whose document text was already kept,
relative to an initial set of already-seen texts. -/
def dedupByDocAux (seen : List String) : List Chunk → List Chunk
  | [] => []
  | c :: l =>
    if c.document ∈ seen then dedupByDocAux seen l
    else c :: dedupByDocAux (c.document :: seen) l

/-- Spec-side formatting, from the claim wording: sort by relevance score
descending, skip passages whose text duplicates an earlier kept text, keep
`n_results`, render each passage and join with a blank line. -/
def spec_format (chunks : List Chunk) (n_results : Int) : String :=
  String.intercalate "\n\n"
    (((dedupByDocAux [] (pySortByScoreDesc chunks)).take n_results.toNat).map
      render_chunk)

/-- Spec-side accepted filter-entry shapes, from the claim wording: a bare
scalar, an `eq` operator, an `in` operator with a non-empty list, or a
`range` operator with at least one bound (the dict is classified by the
first recognized operator key, `eq` before `in` before `range`). -/
def filter_shape_ok : FilterVal → Prop
  | .fdict entries =>
    (fGet entries "eq").isSome = true
    ∨ ((∃ vs, fGet entries "in" = some (.flist vs) ∧ vs ≠ [])
        ∧ fGet entries "eq" = none)
    ∨ ((∃ bounds, fGet entries "range" = some (.fdict bounds)
        ∧ (fHasKey bounds "gt" || fHasKey bounds "gte" ||
           fHasKey bounds "lt" || fHasKey bounds "lte") = true)
        ∧ fGet entries "eq" = none ∧ fHasKey entries "in" = false)
  | _ => True

/-! ## Theorems -/

/-- C3.  Relevance-score normalization: for Euclidean or Manhattan the raw
score is negated (so a smaller raw score yields a larger relevance score);
for cosine or dot it passes through unchanged; hence higher relevance always
means better across all configured metrics. -/
theorem relevance_score_normalization :
    (∀ (cfg : String) (s : ℚ),
      (resolve_distance cfg = .euclid ∨ resolve_distance cfg = .manhattan) →
      relevance_score cfg s = -s)
    ∧ (∀ (cfg : String) (s : ℚ),
      (resolve_distance cfg = .cosine ∨ resolve_distance cfg = .dot) →
      relevance_score cfg s = s)
    ∧ (∀ (cfg : String) (s t : ℚ), s < t →
      ((resolve_distance cfg = .euclid ∨ resolve_distance cfg = .manhattan) →
        relevance_score cfg t < relevance_score cfg s)
      ∧ ((resolve_distance cfg = .cosine ∨ resolve_distance cfg = .dot) →
        relevance_score cfg s < relevance_score cfg t)) := by
  refine ⟨?_, ?_, ?_⟩
  · intro cfg s h
    simp only [relevance_score, if_pos h]
  · intro cfg s h
    have hne : ¬(resolve_distance cfg = .euclid ∨
        resolve_distance cfg = .manhattan) := by
      rcases h with h | h <;> simp [h]
    simp only [relevance_score, if_neg hne]
  · intro cfg s t hst
    constructor
    · intro h
      simp only [relevance_score, if_pos h]
      exact neg_lt_neg hst
    · intro h
      have hne : ¬(resolve_distance cfg = .euclid ∨
          resolve_distance cfg = .manhattan) := by
        rcases h with h | h <;> simp [h]
      simpa only [relevance_score, if_neg hne] using hst

/-- Witness for C3 at concrete inputs. -/
theorem relevance_score_normalization_witness :
    relevance_score "euclid" (3 : ℚ) = -3
    ∧ relevance_score "COSINE" (3 : ℚ) = 3
    ∧ relevance_score "manhattan" (1 : ℚ) < relevance_score "manhattan" (0 : ℚ) :=
  ⟨relevance_score_normalization.1 "euclid" 3 (by decide),
   relevance_score_normalization.2.1 "COSINE" 3 (by decide),
   (relevance_score_normalization.2.2 "manhattan" 0 1 (by norm_num)).1
     (by decide)⟩

/-- Predicate that forces a string to fail identifier validation when one of
its characters is not a letter, digit or underscore. -/
theorem isValidIdentifier_false_of_bad_char (s : String) (c : Char)
    (hc : c ∈ s.toList) (hbad : isIdentChar c = false) :
    isValidIdentifier s = false := by
  unfold isValidIdentifier
  cases hl : s.toList with
  | nil => rfl
  | cons h t =>
    rw [hl] at hc
    rcases List.mem_cons.mp hc with rfl | hmem
    · have h1 : (c.isAlpha || c == '_') = false := by
        unfold isIdentChar at hbad
        rcases Bool.or_eq_false_iff.mp hbad with ⟨h2, h3⟩
        rcases Bool.or_eq_false_iff.mp h2 with ⟨h4, _⟩
        simp [h4, h3]
      simp [h1]
    · cases hall : t.all isIdentChar with
      | false => simp [hall]
      | true =>
        have := List.all_eq_true.mp hall c hmem
        rw [this] at hbad
        exact absurd hbad (by simp)

/-- Success of `collectExcept` means every element succeeded. -/
theorem collectExcept_ok_forall {α β : Type} (f : α → Except String β) :
    ∀ (l : List α) (res : List β), collectExcept f l = .ok res →
    ∀ a ∈ l, ∃ b, f a = .ok b := by
  intro l
  induction l with
  | nil => intro res _ a ha; exact absurd ha (List.not_mem_nil a)
  | cons x t ih =>
    intro res hres a ha
    cases hfx : f x with
    | error e => simp [collectExcept, hfx] at hres
    | ok b =>
      cases hct : collectExcept f t with
      | error e => simp [collectExcept, hfx, hct] at hres
      | ok bs =>
        rcases List.mem_cons.mp ha with rfl | hmem
        · exact ⟨b, hfx⟩
        · exact ih bs hct a hmem

/-- Success of `validate_identifier` implies the pattern matches. -/
theorem validate_ok_valid (value fn v : String)
    (h : validate_identifier value fn = .ok v) :
    isValidIdentifier value = true := by
  by_cases hv : isValidIdentifier value = true
  · exact hv
  · simp [validate_identifier, hv] at h

/-- C4.  Identifier validation: strings matching the identifier grammar are
returned unchanged; strings not matching it fail; in particular any string
containing a quote, a semicolon or a space fails; and the generated
postgres row-streaming query validates every schema, table and column name
(the query is only built when all of them match the grammar). -/
theorem validate_identifier_spec :
    (∀ s fn, isValidIdentifier s = true → validate_identifier s fn = .ok s)
    ∧ (∀ s fn, isValidIdentifier s = false →
        ∃ e, validate_identifier s fn = .error e)
    ∧ (∀ s fn (c : Char), c ∈ s.toList →
        (c = Char.ofNat 39 ∨ c = Char.ofNat 34 ∨ c = Char.ofNat 59 ∨
          c = Char.ofNat 32) →
        ∃ e, validate_identifier s fn = .error e)
    ∧ (∀ schema_name table_name columns q,
        build_postgres_query schema_name table_name columns = .ok q →
        isValidIdentifier schema_name = true
        ∧ isValidIdentifier table_name = true
        ∧ ∀ c ∈ columns, isValidIdentifier c = true) := by
  refine ⟨?_, ?_, ?_, ?_⟩
  · intro s fn h
    simp [validate_identifier, h]
  · intro s fn h
    exact ⟨"Invalid " ++ fn ++ ": " ++ s, by simp [validate_identifier, h]⟩
  · intro s fn c hc hbad
    have hfalse : isValidIdentifier s = false := by
      refine isValidIdentifier_false_of_bad_char s c hc ?_
      rcases hbad with rfl | rfl | rfl | rfl <;> decide
    exact ⟨"Invalid " ++ fn ++ ": " ++ s,
      by simp [validate_identifier, hfalse]⟩
  · intro schema_name table_name columns q h
    unfold build_postgres_query at h
    cases hcols : collectExcept validate_and_quote_column columns with
    | error e => simp [hcols] at h
    | ok vcols =>
      cases hs : validate_identifier schema_name "schema" with
      | error e => simp [hcols, hs] at h
      | ok sv =>
        cases hqs : quote_postgres_identifier sv with
        | error e => simp [hcols, hs, hqs] at h
        | ok qs =>
          cases ht : validate_identifier table_name "table" with
          | error e => simp [hcols, hs, hqs, ht] at h
          | ok tv =>
            refine ⟨validate_ok_valid _ _ _ hs,
              validate_ok_valid _ _ _ ht, ?_⟩
            intro c hcmem
            obtain ⟨b, hb⟩ := collectExcept_ok_forall _ columns vcols
              hcols c hcmem
            unfold validate_and_quote_column at hb
            cases hvc : validate_identifier c "column" with
            | error e => rw [hvc] at hb; exact absurd hb (by simp)
            | ok cv => exact validate_ok_valid _ _ _ hvc

/-- Witness for C4 at concrete inputs: a grammar-conforming identifier
passes unchanged, a string with a space fails, and a built query implies
validity of its names. -/
theorem validate_identifier_spec_witness :
    validate_identifier "users_2" "table" = .ok "users_2"
    ∧ (∃ e, validate_identifier "a b" "table" = .error e)
    ∧ (∃ e, validate_identifier "1users" "table" = .error e) :=
  ⟨validate_identifier_spec.1 "users_2" "table" (by decide),
   validate_identifier_spec.2.2.1 "a b" "table" (Char.ofNat 32) (by decide)
     (by decide),
   validate_identifier_spec.2.1 "1users" "table" (by decide)⟩

/-- Deduplication only depends on the seen accumulator through membership. -/
theorem dedupKeepFirstAux_congr {α : Type} [DecidableEq α]
    (s1 s2 : List α) (h : ∀ a, a ∈ s1 ↔ a ∈ s2) :
    ∀ l, dedupKeepFirstAux s1 l = dedupKeepFirstAux s2 l := by
  intro l
  induction l generalizing s1 s2 with
  | nil => rfl
  | cons a t ih =>
    unfold dedupKeepFirstAux
    by_cases ha : a ∈ s1
    · rw [if_pos ha, if_pos ((h a).mp ha)]
      exact ih s1 s2 h
    · rw [if_neg ha, if_neg (fun hx => ha ((h a).mpr hx))]
      refine congrArg _ (ih (a :: s1) (a :: s2) ?_)
      intro b
      simp only [List.mem_cons]
      exact or_congr Iff.rfl (h b)

/-- The selection loop of `_select_source_ids` computes, from any state with
a remaining quota, the already-selected ids followed by the next distinct
valid ids up to the quota. -/
theorem selectAux_eq (allowed : List Int) (n : Int) :
    ∀ (ps : List ScoredPoint) (selected : List Int),
    (selected.length : Int) < n →
    selectAux allowed n selected ps =
      selected ++ (dedupKeepFirstAux selected
        ((ps.filterMap fun p => parse_source_id p.payload).filter
          (· ∈ allowed))).take (n.toNat - selected.length) := by
  intro ps
  induction ps with
  | nil =>
    intro selected _
    simp [selectAux, dedupKeepFirstAux]
  | cons p rest ih =>
    intro selected hlt
    cases hp : parse_source_id p.payload with
    | none =>
      rw [show selectAux allowed n selected (p :: rest) =
        selectAux allowed n selected rest by simp [selectAux, hp]]
      simpa [List.filterMap_cons, hp] using ih selected hlt
    | some sid =>
      by_cases hal : sid ∈ allowed
      · by_cases hsel : sid ∈ selected
        · rw [show selectAux allowed n selected (p :: rest) =
            selectAux allowed n selected rest by
              simp [selectAux, hp, hal, hsel]]
          rw [ih selected hlt]
          simp [List.filterMap_cons, hp, hal, dedupKeepFirstAux, hsel]
        · have hdedup : dedupKeepFirstAux selected
              (((p :: rest).filterMap fun p =>
                parse_source_id p.payload).filter (· ∈ allowed)) =
              sid :: dedupKeepFirstAux (sid :: selected)
                ((rest.filterMap fun p => parse_source_id p.payload).filter
                  (· ∈ allowed)) := by
            simp [List.filterMap_cons, hp, List.filter_cons, hal,
              dedupKeepFirstAux, hsel]
          by_cases hbreak : n ≤ ((selected ++ [sid]).length : Int)
          · have hstop : selectAux allowed n selected (p :: rest) =
                selected ++ [sid] := by
              simp only [selectAux, hp]
              rw [if_neg (by simp [hal, hsel]), if_pos hbreak]
            have hn1 : n.toNat - selected.length = 1 := by
              simp only [List.length_append, List.length_cons,
                List.length_nil] at hbreak
              omega
            rw [hstop, hdedup, hn1, List.take_succ_cons, List.take_zero]
          · have hstep : selectAux allowed n selected (p :: rest) =
                selectAux allowed n (selected ++ [sid]) rest := by
              simp only [selectAux, hp]
              rw [if_neg (by simp [hal, hsel]), if_neg hbreak]
            have hlen : ((selected ++ [sid]).length : Int) < n := by
              push_neg at hbreak
              exact hbreak
            rw [hstep, ih (selected ++ [sid]) hlen]
            have hcongr : dedupKeepFirstAux (selected ++ [sid])
                ((rest.filterMap fun p => parse_source_id p.payload).filter
                  (· ∈ allowed)) =
              dedupKeepFirstAux (sid :: selected)
                ((rest.filterMap fun p => parse_source_id p.payload).filter
                  (· ∈ allowed)) := by
              refine dedupKeepFirstAux_congr _ _ (fun a => ?_) _
              simp [List.mem_append, List.mem_cons, or_comm]
            have hkn : n.toNat - selected.length =
                (n.toNat - (selected ++ [sid]).length) + 1 := by
              simp only [List.length_append, List.length_cons,
                List.length_nil] at hbreak ⊢
              omega
            rw [hcongr, hdedup, hkn, List.take_succ_cons,
              List.append_assoc, List.singleton_append]
      · rw [show selectAux allowed n selected (p :: rest) =
          selectAux allowed n selected rest by simp [selectAux, hp, hal]]
        rw [ih selected hlt]
        simp [List.filterMap_cons, hp, hal]

/-- The search trace of the collection loop extends its initial trace. -/
theorem collectAux_calls_extend (env : RetrieveEnv)
    (filters : Option (List (String × FilterVal))) (n_results : Int) :
    ∀ (sel : List Int) (acc : List Chunk) (calls : List SearchCall),
    ∃ extra, (collectAux env filters n_results sel acc calls).2 =
      calls ++ extra := by
  intro sel
  induction sel with
  | nil => intro acc calls; exact ⟨[], by simp [collectAux]⟩
  | cons sid rest ih =>
    intro acc calls
    cases hc : env.source_collection sid with
    | none => simpa [collectAux, hc] using ih acc calls
    | some collection =>
      cases hf : stage2_filter env filters sid with
      | error e => exact ⟨[], by simp [collectAux, hc, hf]⟩
      | ok qf =>
        obtain ⟨extra, hextra⟩ := ih
          (acc ++ chunksOfPoints env.distance sid
            (searchResults (env.collection_exists collection)
              (env.chunk_results sid) n_results))
          (calls ++ [⟨collection, n_results⟩])
        refine ⟨⟨collection, n_results⟩ :: extra, ?_⟩
        simp only [collectAux, hc, hf]
        rw [hextra, List.append_assoc]
        rfl

/-- The trace of a `retrieve` run is either empty or starts with the
stage-1 search of the source-level index collection. -/
theorem retrieveM_trace_head (env : RetrieveEnv) (rc : RC)
    (session_source_ids : List Int)
    (filters : Option (List (String × FilterVal)))
    (n_results_req : Option Int) :
    (retrieveM env (some rc) session_source_ids filters n_results_req).2 = []
    ∨ ∃ extra,
      (retrieveM env (some rc) session_source_ids filters n_results_req).2 =
        retrieve_stage1_call env rc :: extra := by
  by_cases h1 : (retrieve_allowed rc session_source_ids).isEmpty
  · left
    simp [retrieveM, h1]
  · by_cases h2 : (retrieve_selected env rc session_source_ids).isEmpty
    · right
      exact ⟨[], by simp [retrieveM, h1, h2]⟩
    · obtain ⟨extra, hextra⟩ := collectAux_calls_extend env filters
        (normalize_n_results n_results_req rc.n_results)
        (retrieve_selected env rc session_source_ids)
        [] [retrieve_stage1_call env rc]
      right
      cases hcol : collectAux env filters
        (normalize_n_results n_results_req rc.n_results)
        (retrieve_selected env rc session_source_ids)
        [] [retrieve_stage1_call env rc] with
      | mk res calls =>
        rw [hcol] at hextra
        simp only [List.singleton_append] at hextra
        cases res with
        | error e => exact ⟨extra, by simp [retrieveM, h1, h2, hcol, hextra]⟩
        | ok chunks =>
          by_cases h3 : chunks.isEmpty
          · exact ⟨extra,
              by simp [retrieveM, h1, h2, hcol, h3, hextra]⟩
          · exact ⟨extra,
              by simp [retrieveM, h1, h2, hcol, h3, hextra]⟩

/-- C1.  Stage-1 source selection: within `retrieve`, with the stage-1
results produced by a search at limit `max(4 * n_sources, n_sources)`, the
selected source ids are exactly the first `n_sources` distinct ids that
parse from the result payloads and lie in the allowed set, in score order;
and any run that searches at all performs that stage-1 search first.  The
concrete scenario from the spec (results 999, 10, 20 with scope {10, 20}
and `n_sources = 2`) selects [10, 20]. -/
theorem retrieve_stage1_source_selection :
    (∀ (exists_ : Bool) (raw : List ScoredPoint) (allowed : List Int)
      (n : Int),
      select_source_ids (searchResults exists_ raw (max (n * 4) n)) allowed n
        = spec_select (searchResults exists_ raw (max (n * 4) n)) allowed n)
    ∧ (∀ (env : RetrieveEnv) (rc : RC) (session_source_ids : List Int)
      (filters : Option (List (String × FilterVal)))
      (n_results_req : Option Int),
      (retrieveM env (some rc) session_source_ids filters
        n_results_req).2 ≠ [] →
      (retrieveM env (some rc) session_source_ids filters
        n_results_req).2.head? =
        some ⟨env.sources_index_collection,
          max (4 * rc.n_sources) rc.n_sources⟩)
    ∧ select_source_ids
        [⟨1, some [("source_id", .vint 999)]⟩,
         ⟨(1 : ℚ)/2, some [("source_id", .vint 10)]⟩,
         ⟨(1 : ℚ)/4, some [("source_id", .vint 20)]⟩]
        [10, 20] 2 = [10, 20] := by
  refine ⟨?_, ?_, by decide⟩
  · intro exists_ raw allowed n
    by_cases hL : max (n * 4) n ≤ 0
    · rw [show searchResults exists_ raw (max (n * 4) n) = [] by
        simp [searchResults, hL]]
      simp [select_source_ids, selectAux, spec_select, dedupKeepFirst,
        dedupKeepFirstAux]
    · have hn : (0 : Int) < n := by
        by_contra hc
        push_neg at hc
        have h4 : n * 4 ≤ 0 := by linarith
        exact hL (max_le h4 hc)
      have := selectAux_eq allowed n
        (searchResults exists_ raw (max (n * 4) n)) [] (by simpa using hn)
      simpa [select_source_ids, spec_select, dedupKeepFirst] using this
  · intro env rc session filters nreq hne
    rcases retrieveM_trace_head env rc session filters nreq with h | ⟨extra, h⟩
    · exact absurd h hne
    · rw [h]
      simp only [List.head?_cons, Option.some.injEq]
      simp [retrieve_stage1_call, retrieve_limit, Int.mul_comm]

/-- Witness for C1: a concrete run whose trace is non-empty indeed starts
with the stage-1 search of the index collection at limit 8. -/
theorem retrieve_stage1_source_selection_witness :
    (retrieveM
      ⟨"COSINE", "sources-index", fun _ => true,
        [⟨1, some [("source_id", .vint 10)]⟩], fun _ => none,
        fun _ => none, fun _ => []⟩
      (some ⟨[10], 5, 2⟩) [] none none).2.head? =
      some ⟨"sources-index", 8⟩ :=
  retrieve_stage1_source_selection.2.1
    ⟨"COSINE", "sources-index", fun _ => true,
      [⟨1, some [("source_id", .vint 10)]⟩], fun _ => none,
      fun _ => none, fun _ => []⟩
    ⟨[10], 5, 2⟩ [] none none (by decide)

/-- The formatting loop of `_format_ranked_chunks` computes, from any state
with a remaining quota, the kept renderings followed by the renderings of
the next passages with unseen texts, up to the quota. -/
theorem formatAux_eq (n : Int) :
    ∀ (cs : List Chunk) (kept seen : List String),
    (kept.length : Int) < n →
    formatAux n cs kept seen =
      kept ++ ((dedupByDocAux seen cs).take (n.toNat - kept.length)).map
        render_chunk := by
  intro cs
  induction cs with
  | nil =>
    intro kept seen _
    simp [formatAux, dedupByDocAux]
  | cons c rest ih =>
    intro kept seen hlt
    by_cases hmem : c.document ∈ seen
    · rw [show formatAux n (c :: rest) kept seen =
        formatAux n rest kept seen by simp [formatAux, hmem]]
      rw [ih kept seen hlt]
      simp [dedupByDocAux, hmem]
    · by_cases hbreak : n ≤ ((kept ++ [render_chunk c]).length : Int)
      · have hstop : formatAux n (c :: rest) kept seen =
            kept ++ [render_chunk c] := by
          simp only [formatAux]
          rw [if_neg hmem, if_pos hbreak]
        have hn1 : n.toNat - kept.length = 1 := by
          simp only [List.length_append, List.length_cons,
            List.length_nil] at hbreak
          omega
        rw [hstop]
        simp [dedupByDocAux, hmem, hn1]
      · have hstep : formatAux n (c :: rest) kept seen =
            formatAux n rest (kept ++ [render_chunk c])
              (c.document :: seen) := by
          simp only [formatAux]
          rw [if_neg hmem, if_neg hbreak]
        have hlen : ((kept ++ [render_chunk c]).length : Int) < n := by
          push_neg at hbreak
          exact hbreak
        rw [hstep, ih (kept ++ [render_chunk c]) (c.document :: seen) hlen]
        have hkn : n.toNat - kept.length =
            (n.toNat - (kept ++ [render_chunk c]).length) + 1 := by
          simp only [List.length_append, List.length_cons,
            List.length_nil] at hbreak ⊢
          omega
        rw [show dedupByDocAux seen (c :: rest) =
          c :: dedupByDocAux (c.document :: seen) rest by
            simp [dedupByDocAux, hmem]]
        rw [hkn, List.take_succ_cons, List.map_cons,
          List.append_assoc, List.singleton_append]

/-- C2.  Rank, dedup and format: for every list of collected passages and
positive result count, the output equals the spec-side pipeline — sort by
relevance score descending, skip passages whose text exactly duplicates an
already kept text, stop at `n_results`, render each passage and join with a
blank line.  The concrete dedup scenario keeps only the higher-ranked of
two passages with identical text from different sources. -/
theorem format_ranked_chunks_spec :
    (∀ (chunks : List Chunk) (n_results : Int), 1 ≤ n_results →
      format_ranked_chunks chunks n_results = spec_format chunks n_results)
    ∧ format_ranked_chunks
        [⟨1, 1, "dup", none⟩, ⟨2, 2, "dup", none⟩] 5 = "[source:2] dup" := by
  constructor
  · intro chunks n hn
    unfold format_ranked_chunks spec_format
    rw [formatAux_eq n (pySortByScoreDesc chunks) [] []
      (by simpa using hn)]
    simp
  · decide

/-- Witness for C2 at concrete inputs: the loop output coincides with the
spec pipeline on a three-passage list with a duplicate text. -/
theorem format_ranked_chunks_spec_witness :
    format_ranked_chunks
      [⟨1, 3, "a", none⟩, ⟨2, 4, "b", some "7"⟩, ⟨3, 5, "b", none⟩] 2 =
    spec_format
      [⟨1, 3, "a", none⟩, ⟨2, 4, "b", some "7"⟩, ⟨3, 5, "b", none⟩] 2 :=
  format_ranked_chunks_spec.1 _ 2 (by decide)

/-- C9.  Empty-scope sentinel: when the effective allowed source id set is
empty, `retrieve` returns the no-sources sentinel and performs no
vector-store search at all (the search trace is empty). -/
theorem retrieve_empty_scope_sentinel :
    ∀ (env : RetrieveEnv) (rc : RC) (session_source_ids : List Int)
      (filters : Option (List (String × FilterVal)))
      (n_results_req : Option Int),
      retrieve_allowed rc session_source_ids = [] →
      retrieveM env (some rc) session_source_ids filters n_results_req =
        ("No sources attached to this session", []) := by
  intro env rc session filters nreq h
  simp [retrieveM, h]

/-- Witness for C9: a concrete call with an empty scope. -/
theorem retrieve_empty_scope_sentinel_witness :
    retrieveM
      ⟨"COSINE", "sources-index", fun _ => true, [], fun _ => none,
        fun _ => none, fun _ => []⟩
      (some ⟨[], 5, 3⟩) [] none none =
      ("No sources attached to this session", []) :=
  retrieve_empty_scope_sentinel _ ⟨[], 5, 3⟩ [] none none rfl

/-- Offsets of a fetch trace are consistent: each fetch uses the previous
offset advanced by the previous batch's actual row count, starting from the
given offset. -/
def offsetsConsistent {ρ : Type} : Nat → List (Nat × List ρ) → Prop
  | _, [] => True
  | o, e :: rest => e.1 = o ∧ offsetsConsistent (o + e.2.length) rest

/-- The streaming loop always produces an offset-consistent trace. -/
theorem streamAux_offsets {ρ : Type} (table : List ρ) (b : Nat) :
    ∀ (fuel offset : Nat),
    offsetsConsistent offset (streamAux table b offset fuel) := by
  intro fuel
  induction fuel with
  | zero => intro offset; simp [streamAux, offsetsConsistent]
  | succ fuel ih =>
    intro offset
    by_cases hemp : (fetchRows table b offset).isEmpty
    · simp [streamAux, hemp, offsetsConsistent]
    · simpa [streamAux, hemp, offsetsConsistent] using ih _

/-- With sufficient fuel, the streaming loop is a run of non-empty fetched
batches followed by exactly one final empty fetch. -/
theorem streamAux_terminates {ρ : Type} (table : List ρ) (b : Nat) :
    ∀ (fuel offset : Nat), table.length - offset < fuel →
    ∃ (pre : List (Nat × List ρ)) (last : Nat × List ρ), streamAux table b offset fuel = pre ++ [last]
      ∧ last.2 = [] ∧ ∀ e ∈ pre, e.2 ≠ [] := by
  intro fuel
  induction fuel with
  | zero => intro offset h; omega
  | succ fuel ih =>
    intro offset h
    by_cases hemp : (fetchRows table b offset).isEmpty
    · refine ⟨[], (offset, fetchRows table b offset), ?_, ?_, ?_⟩
      · simp [streamAux, hemp]
      · simpa [List.isEmpty_iff] using hemp
      · simp
    · have hne : fetchRows table b offset ≠ [] := by
        simpa [List.isEmpty_iff] using hemp
      have hlen : 1 ≤ (fetchRows table b offset).length :=
        List.length_pos.mpr hne
      have hofflt : offset < table.length := by
        by_contra hc
        push_neg at hc
        have hdrop : table.drop offset = [] := List.drop_eq_nil_of_le hc
        simp [fetchRows, hdrop] at hne
      have hfuel : table.length -
          (offset + (fetchRows table b offset).length) < fuel := by omega
      obtain ⟨pre, last, heq, hlast, hpre⟩ := ih _ hfuel
      refine ⟨(offset, fetchRows table b offset) :: pre, last, ?_, hlast, ?_⟩
      · simp [streamAux, hemp, heq]
      · intro e he
        rcases List.mem_cons.mp he with rfl | hm
        · exact hne
        · exact hpre e hm

/-- With sufficient fuel and a positive batch size, the concatenation of the
fetched batches is the remainder of the table. -/
theorem streamAux_join {ρ : Type} (table : List ρ) (b : Nat) (hb : 0 < b) :
    ∀ (fuel offset : Nat), table.length - offset < fuel →
    ((streamAux table b offset fuel).map (·.2)).flatten = table.drop offset := by
  intro fuel
  induction fuel with
  | zero => intro offset h; omega
  | succ fuel ih =>
    intro offset h
    by_cases hemp : (fetchRows table b offset).isEmpty
    · have hnil : (table.drop offset).take b = [] := by
        simpa [fetchRows, List.isEmpty_iff] using hemp
      have hdrop : table.drop offset = [] := by
        rcases List.take_eq_nil_iff.mp hnil with h0 | h0
        · omega
        · exact h0
      simp [streamAux, hemp, hdrop, fetchRows]
    · have hne : fetchRows table b offset ≠ [] := by
        simpa [List.isEmpty_iff] using hemp
      have hofflt : offset < table.length := by
        by_contra hc
        push_neg at hc
        have hdrop : table.drop offset = [] := List.drop_eq_nil_of_le hc
        simp [fetchRows, hdrop] at hne
      have hlen : 1 ≤ (fetchRows table b offset).length :=
        List.length_pos.mpr hne
      have hfuel : table.length -
          (offset + (fetchRows table b offset).length) < fuel := by omega
      have hrec := ih (offset + (fetchRows table b offset).length) hfuel
      rw [show streamAux table b offset (fuel + 1) =
        (offset, fetchRows table b offset) ::
          streamAux table b (offset + (fetchRows table b offset).length) fuel
        by simp [streamAux, hemp]]
      rw [List.map_cons, List.flatten_cons, hrec]
      have hsplit : table.drop (offset + (fetchRows table b offset).length) =
          (table.drop offset).drop (fetchRows table b offset).length := by
        rw [List.drop_drop]
      rw [hsplit]
      unfold fetchRows
      by_cases hble : b ≤ (table.drop offset).length
      · have htl : ((table.drop offset).take b).length = b := by
          rw [List.length_take]
          omega
        rw [htl]
        exact List.take_append_drop b (table.drop offset)
      · push_neg at hble
        have hta : (table.drop offset).take b = table.drop offset := by
          apply List.take_of_length_le
          omega
        rw [hta, List.drop_length, List.append_nil]

/-- The offsets and batch sizes of the streaming loop only depend on the
table length and the batch size. -/
theorem streamAux_shape {ρ : Type} (table : List ρ) (b : Nat) :
    ∀ (fuel offset : Nat),
    (streamAux table b offset fuel).map (fun e => (e.1, e.2.length)) =
      traceSpecAux table.length b offset fuel := by
  intro fuel
  induction fuel with
  | zero => intro offset; simp [streamAux, traceSpecAux]
  | succ fuel ih =>
    intro offset
    have hlen : (fetchRows table b offset).length =
        min b (table.length - offset) := by
      simp [fetchRows, List.length_take, List.length_drop]
    by_cases hemp : (fetchRows table b offset).isEmpty
    · have hk : min b (table.length - offset) = 0 := by
        rw [← hlen]
        simpa [List.isEmpty_iff] using congrArg List.length
          (List.isEmpty_iff.mp hemp)
      simp [streamAux, hemp, traceSpecAux, hk, hlen]
    · have hk : ¬min b (table.length - offset) = 0 := by
        rw [← hlen]
        have : fetchRows table b offset ≠ [] := by
          simpa [List.isEmpty_iff] using hemp
        simpa [List.length_eq_zero] using this
      rw [show streamAux table b offset (fuel + 1) =
        (offset, fetchRows table b offset) ::
          streamAux table b (offset + (fetchRows table b offset).length) fuel
        by simp [streamAux, hemp]]
      rw [show traceSpecAux table.length b offset (fuel + 1) =
        (offset, min b (table.length - offset)) ::
          traceSpecAux table.length b
            (offset + min b (table.length - offset)) fuel by
        simp [traceSpecAux, hk]]
      rw [List.map_cons, hlen, ih (offset + min b (table.length - offset))]

/-- Success of `collectExcept` preserves the length. -/
theorem collectExcept_ok_length {α β : Type} (f : α → Except String β) :
    ∀ (l : List α) (res : List β), collectExcept f l = .ok res →
    res.length = l.length := by
  intro l
  induction l with
  | nil =>
    intro res hres
    simp only [collectExcept, Except.ok.injEq] at hres
    simp [← hres]
  | cons x t ih =>
    intro res hres
    cases hfx : f x with
    | error e => simp [collectExcept, hfx] at hres
    | ok b =>
      cases hct : collectExcept f t with
      | error e => simp [collectExcept, hfx, hct] at hres
      | ok bs =>
        simp only [collectExcept, hfx, hct, Except.ok.injEq] at hres
        simp [← hres, ih bs hct]

/-- Key membership in a filter dict agrees with lookup success. -/
theorem fHasKey_eq_isSome (entries : List (String × FilterVal)) (k : String) :
    fHasKey entries k = (fGet entries k).isSome := by
  unfold fHasKey fGet
  cases entries.find? (fun e => e.1 == k) with
  | none => rfl
  | some p => rfl

/-- C5.  Structured filter building: entries whose field is outside the
allowed set fail; an in-scope entry builds a condition exactly when it has
one of the accepted shapes (bare scalar, `eq`, non-empty-list `in`, or
`range` with a bound) — in particular `{"category": {"in": []}}` fails;
the accepted conditions of a filter map are conjoined into one `must`
list, one condition per entry; and a build failure makes the whole
retrieve call return the descriptive invalid-filter message with no filter
applied. -/
theorem build_filter_validation :
    (∀ (field_name : String) (raw_spec : FilterVal)
      (allowed_fields : List String), field_name ∉ allowed_fields →
      ∃ e, build_filter_condition field_name raw_spec allowed_fields =
        .error e)
    ∧ (∀ (field_name : String) (raw_spec : FilterVal)
      (allowed_fields : List String), field_name ∈ allowed_fields →
      ((∃ c, build_filter_condition field_name raw_spec allowed_fields =
        .ok c) ↔ filter_shape_ok raw_spec))
    ∧ (∃ e, build_query_filter
        (some [("category", .fdict [("in", .flist [])])]) ["category"] =
        .error e)
    ∧ (∀ (fl : List (String × FilterVal)) (allowed_fields : List String)
      (conditions : List FieldCondition), fl ≠ [] →
      collectExcept (fun e => build_filter_condition e.1 e.2 allowed_fields)
        fl = .ok conditions →
      build_query_filter (some fl) allowed_fields = .ok (some ⟨conditions⟩)
        ∧ conditions.length = fl.length)
    ∧ (∀ (env : RetrieveEnv) (rc : RC) (session_source_ids : List Int)
      (filters : Option (List (String × FilterVal)))
      (n_results_req : Option Int) (e : String) (calls : List SearchCall),
      (retrieve_allowed rc session_source_ids).isEmpty = false →
      (retrieve_selected env rc session_source_ids).isEmpty = false →
      collectAux env filters (normalize_n_results n_results_req rc.n_results)
        (retrieve_selected env rc session_source_ids) []
        [retrieve_stage1_call env rc] = (.error e, calls) →
      retrieveM env (some rc) session_source_ids filters n_results_req =
        ("Invalid retrieve filters: " ++ e, calls)) := by
  refine ⟨?_, ?_, ?_, ?_, ?_⟩
  · intro field_name raw_spec allowed_fields h
    exact ⟨"Filter field " ++ field_name ++ " is not allowed",
      by simp [build_filter_condition, h]⟩
  · intro field_name raw_spec allowed_fields hmem
    have hnn : ¬field_name ∉ allowed_fields := not_not_intro hmem
    cases raw_spec with
    | fdict entries =>
      constructor
      · rintro ⟨c, hc⟩
        cases heq : fGet entries "eq" with
        | some v => simp [filter_shape_ok, heq]
        | none =>
          by_cases hin : fHasKey entries "in" = true
          · cases hinv : fGet entries "in" with
            | none =>
              rw [fHasKey_eq_isSome, hinv] at hin
              exact absurd hin (by simp)
            | some inv =>
              cases inv with
              | flist vs =>
                by_cases hvs : vs.isEmpty = true
                · exfalso
                  simp [build_filter_condition, hnn, heq, hin, hinv,
                    hvs] at hc
                · refine Or.inr (Or.inl ⟨⟨vs, hinv, ?_⟩, heq⟩)
                  simpa [List.isEmpty_iff] using hvs
              | fnone =>
                exfalso
                simp [build_filter_condition, hnn, heq, hin, hinv] at hc
              | fbool b =>
                exfalso
                simp [build_filter_condition, hnn, heq, hin, hinv] at hc
              | fint i =>
                exfalso
                simp [build_filter_condition, hnn, heq, hin, hinv] at hc
              | fstr s =>
                exfalso
                simp [build_filter_condition, hnn, heq, hin, hinv] at hc
              | fdict d =>
                exfalso
                simp [build_filter_condition, hnn, heq, hin, hinv] at hc
          · cases hr : fGet entries "range" with
            | none =>
              exfalso
              simp [build_filter_condition, hnn, heq, hin, hr] at hc
            | some rv =>
              cases rv with
              | fdict bounds =>
                by_cases hb : (fHasKey bounds "gt" || fHasKey bounds "gte" ||
                    fHasKey bounds "lt" || fHasKey bounds "lte") = true
                · exact Or.inr (Or.inr ⟨⟨bounds, hr, hb⟩, heq,
                    by simpa using hin⟩)
                · exfalso
                  simp [build_filter_condition, hnn, heq, hin, hr, hb] at hc
              | fnone =>
                exfalso
                simp [build_filter_condition, hnn, heq, hin, hr] at hc
              | fbool b =>
                exfalso
                simp [build_filter_condition, hnn, heq, hin, hr] at hc
              | fint i =>
                exfalso
                simp [build_filter_condition, hnn, heq, hin, hr] at hc
              | fstr s =>
                exfalso
                simp [build_filter_condition, hnn, heq, hin, hr] at hc
              | flist vs =>
                exfalso
                simp [build_filter_condition, hnn, heq, hin, hr] at hc
      · intro hshape
        simp only [filter_shape_ok] at hshape
        rcases hshape with heq | ⟨⟨vs, hinv, hvs⟩, heq⟩ |
          ⟨⟨bounds, hr, hb⟩, heq, hin⟩
        · cases hv : fGet entries "eq" with
          | none => rw [hv] at heq; exact absurd heq (by simp)
          | some v =>
            exact ⟨.matchValue field_name v,
              by simp [build_filter_condition, hnn, hv]⟩
        · have hink : fHasKey entries "in" = true := by
            rw [fHasKey_eq_isSome, hinv]
            rfl
          refine ⟨.matchAny field_name vs, ?_⟩
          simp [build_filter_condition, hnn, heq, hink, hinv,
            List.isEmpty_iff, hvs]
        · refine ⟨.range field_name (fGet bounds "gt") (fGet bounds "gte")
            (fGet bounds "lt") (fGet bounds "lte"), ?_⟩
          simp [build_filter_condition, hnn, heq, hin, hr, hb]
    | fnone =>
      simp only [filter_shape_ok, iff_true]
      exact ⟨.matchValue field_name .fnone,
        by simp [build_filter_condition, hnn]⟩
    | fbool b =>
      simp only [filter_shape_ok, iff_true]
      exact ⟨.matchValue field_name (.fbool b),
        by simp [build_filter_condition, hnn]⟩
    | fint i =>
      simp only [filter_shape_ok, iff_true]
      exact ⟨.matchValue field_name (.fint i),
        by simp [build_filter_condition, hnn]⟩
    | fstr s =>
      simp only [filter_shape_ok, iff_true]
      exact ⟨.matchValue field_name (.fstr s),
        by simp [build_filter_condition, hnn]⟩
    | flist xs =>
      simp only [filter_shape_ok, iff_true]
      exact ⟨.matchValue field_name (.flist xs),
        by simp [build_filter_condition, hnn]⟩
  · exact ⟨"Filter category.in must be non-empty list", rfl⟩
  · intro fl allowed_fields conditions hne hcoll
    have hlen := collectExcept_ok_length _ fl conditions hcoll
    have hcne : conditions.isEmpty = false := by
      cases conditions with
      | nil =>
        exfalso
        exact hne (List.length_eq_zero.mp hlen.symm)
      | cons c t => rfl
    have hemp : fl.isEmpty = false := by
      cases fl with
      | nil => exact absurd rfl hne
      | cons a t => rfl
    refine ⟨?_, hlen⟩
    simp [build_query_filter, hemp, hcoll, hcne]
  · intro env rc session filters nreq e calls h1 h2 hcol
    simp [retrieveM, h1, h2, hcol]

/-- Witness for C5: a concrete retrieve call whose filter names a field
outside the source's allowed set returns the invalid-filter message. -/
theorem build_filter_validation_witness :
    retrieveM
      ⟨"COSINE", "sources-index", fun _ => true,
        [⟨1, some [("source_id", .vint 1)]⟩],
        fun _ => some "c1", fun _ => some ["f"], fun _ => []⟩
      (some ⟨[1], 5, 1⟩) [] (some [("bad", .fint 1)]) none =
      ("Invalid retrieve filters: Filter field bad is not allowed",
        [⟨"sources-index", 4⟩]) :=
  build_filter_validation.2.2.2.2
    ⟨"COSINE", "sources-index", fun _ => true,
      [⟨1, some [("source_id", .vint 1)]⟩],
      fun _ => some "c1", fun _ => some ["f"], fun _ => []⟩
    ⟨[1], 5, 1⟩ [] (some [("bad", .fint 1)]) none
    "Filter field bad is not allowed" [⟨"sources-index", 4⟩]
    rfl rfl rfl

/-- C6.  Row streaming pagination: the fetch trace is offset-consistent
(each fetch's offset is the previous offset advanced by the previous
batch's actual row count, from 0), the loop terminates exactly at the first
empty fetched batch, for a positive batch size the yielded batches
reassemble the whole table, the generated query carries the bound-parameter
placeholders (the limit and offset values never appear in it), and a
1001-row table with batch size 500 is fetched at offsets 0, 500, 1000 with
batch sizes 500, 500, 1 before the final empty fetch at offset 1001. -/
theorem stream_rows_pagination :
    (∀ (ρ : Type) (table : List ρ) (b : Nat),
      offsetsConsistent 0 (stream_rows table b))
    ∧ (∀ (ρ : Type) (table : List ρ) (b : Nat),
      ∃ (pre : List (Nat × List ρ)) (last : Nat × List ρ), stream_rows table b = pre ++ [last]
        ∧ last.2 = [] ∧ ∀ e ∈ pre, e.2 ≠ [])
    ∧ (∀ (ρ : Type) (table : List ρ) (b : Nat), 0 < b →
      ((stream_rows table b).map (·.2)).flatten = table)
    ∧ (∀ schema_name table_name columns q,
      build_postgres_query schema_name table_name columns = .ok q →
      ∃ front, q = front ++ " LIMIT $1 OFFSET $2")
    ∧ (stream_rows (List.range 1001) 500).map (fun e => (e.1, e.2.length)) =
        [(0, 500), (500, 500), (1000, 1), (1001, 0)] := by
  refine ⟨?_, ?_, ?_, ?_, ?_⟩
  · intro ρ table b
    exact streamAux_offsets table b (table.length + 1) 0
  · intro ρ table b
    exact streamAux_terminates table b (table.length + 1) 0 (by omega)
  · intro ρ table b hb
    have := streamAux_join table b hb (table.length + 1) 0 (by omega)
    simpa [stream_rows] using this
  · intro schema_name table_name columns q h
    unfold build_postgres_query at h
    cases hcols : collectExcept validate_and_quote_column columns with
    | error e => simp [hcols] at h
    | ok vcols =>
      cases hs : validate_identifier schema_name "schema" with
      | error e => simp [hcols, hs] at h
      | ok sv =>
        cases hqs : quote_postgres_identifier sv with
        | error e => simp [hcols, hs, hqs] at h
        | ok qs =>
          cases ht : validate_identifier table_name "table" with
          | error e => simp [hcols, hs, hqs, ht] at h
          | ok tv =>
            cases hqt : quote_postgres_identifier tv with
            | error e => simp [hcols, hs, hqs, ht, hqt] at h
            | ok qt =>
              simp only [hcols, hs, hqs, ht, hqt, Except.ok.injEq] at h
              exact ⟨"SELECT " ++ String.intercalate ", " vcols ++
                " FROM " ++ qs ++ "." ++ qt, by rw [← h]⟩
  · have hshape := streamAux_shape (List.range 1001) 500
      ((List.range 1001).length + 1) 0
    rw [show stream_rows (List.range 1001) 500 =
      streamAux (List.range 1001) 500 0 ((List.range 1001).length + 1)
      from rfl]
    rw [hshape]
    rw [List.length_range]
    decide

/-- Witness for C6 at concrete inputs: a three-row table with batch size 2
reassembles fully, and a concretely built query ends with the placeholder
clause. -/
theorem stream_rows_pagination_witness :
    ((stream_rows [10, 20, 30] 2).map (·.2)).flatten = [10, 20, 30]
    ∧ ∃ front, "SELECT \"a\" FROM \"public\".\"t\" LIMIT $1 OFFSET $2" =
        front ++ " LIMIT $1 OFFSET $2" :=
  ⟨stream_rows_pagination.2.2.1 Nat [10, 20, 30] 2 (by decide),
   stream_rows_pagination.2.2.2.1 "public" "t" ["a"] _ rfl⟩

/-- Evaluation of `pyStr` on an integer (the mutual definition is not
definitionally reducible, so the equation is registered once). -/
theorem pyStr_vint (i : Int) : pyStr (.vint i) = toString i := by
  simp [pyStr]

/-- Evaluation of `pyStr` on a string. -/
theorem pyStr_vstr (s : String) : pyStr (.vstr s) = s := by
  simp [pyStr]

/-- Payload keys written by `_prepare_db_point` before the filter fields. -/
def reservedPayloadKeys : List String :=
  ["source_id", "source_name", "source_type", "source_backend",
   "schema_name", "table_name", "row_id"]

/-- Lookup at one key is unchanged by an in-place replacement at another
key. -/
theorem pyGet_map_replace (k f : String) (v : PyVal) (h : f ≠ k) :
    ∀ (p : List (String × PyVal)),
    pyGet (p.map fun e => if e.1 == f then (f, v) else e) k = pyGet p k := by
  intro p
  induction p with
  | nil => rfl
  | cons a t ih =>
    by_cases haf : (a.1 == f) = true
    · have haf' : a.1 = f := by simpa [beq_iff_eq] using haf
      calc pyGet ((a :: t).map fun e => if e.1 == f then (f, v) else e) k
          = pyGet (t.map fun e => if e.1 == f then (f, v) else e) k := by
            unfold pyGet
            rw [List.map_cons, if_pos haf,
              show List.find? (fun e => e.1 == k)
                  ((f, v) :: t.map fun e => if e.1 == f then (f, v) else e) =
                List.find? (fun e => e.1 == k)
                  (t.map fun e => if e.1 == f then (f, v) else e) from
                List.find?_cons_of_neg _ (by simp [h])]
        _ = pyGet t k := ih
        _ = pyGet (a :: t) k := by
            unfold pyGet
            rw [show List.find? (fun e => e.1 == k) (a :: t) =
              List.find? (fun e => e.1 == k) t from
              List.find?_cons_of_neg _ (by simp [haf', h])]
    · by_cases hak : (a.1 == k) = true
      · calc pyGet ((a :: t).map fun e => if e.1 == f then (f, v) else e) k
            = some a.2 := by
              unfold pyGet
              rw [List.map_cons, if_neg haf,
                show List.find? (fun e => e.1 == k)
                    (a :: t.map fun e => if e.1 == f then (f, v) else e) =
                  some a from List.find?_cons_of_pos _ hak]
          _ = pyGet (a :: t) k := by
              unfold pyGet
              rw [show List.find? (fun e => e.1 == k) (a :: t) = some a from
                List.find?_cons_of_pos _ hak]
      · calc pyGet ((a :: t).map fun e => if e.1 == f then (f, v) else e) k
            = pyGet (t.map fun e => if e.1 == f then (f, v) else e) k := by
              unfold pyGet
              rw [List.map_cons, if_neg haf,
                show List.find? (fun e => e.1 == k)
                    (a :: t.map fun e => if e.1 == f then (f, v) else e) =
                  List.find? (fun e => e.1 == k)
                    (t.map fun e => if e.1 == f then (f, v) else e) from
                  List.find?_cons_of_neg _ (by simp [hak])]
          _ = pyGet t k := ih
          _ = pyGet (a :: t) k := by
              unfold pyGet
              rw [show List.find? (fun e => e.1 == k) (a :: t) =
                List.find? (fun e => e.1 == k) t from
                List.find?_cons_of_neg _ (by simp [hak])]

/-- Lookup at one key is unchanged by appending an entry at another key. -/
theorem pyGet_append_single_ne (k f : String) (v : PyVal) (h : f ≠ k) :
    ∀ (p : List (String × PyVal)),
    pyGet (p ++ [(f, v)]) k = pyGet p k := by
  intro p
  induction p with
  | nil =>
    unfold pyGet
    rw [List.nil_append,
      show List.find? (fun e => e.1 == k) [(f, v)] =
        List.find? (fun e => e.1 == k) [] from
        List.find?_cons_of_neg _ (by simp [h])]
  | cons a t ih =>
    by_cases hak : (a.1 == k) = true
    · calc pyGet ((a :: t) ++ [(f, v)]) k = some a.2 := by
            unfold pyGet
            rw [List.cons_append,
              show List.find? (fun e => e.1 == k) (a :: (t ++ [(f, v)])) =
                some a from List.find?_cons_of_pos _ hak]
        _ = pyGet (a :: t) k := by
            unfold pyGet
            rw [show List.find? (fun e => e.1 == k) (a :: t) = some a from
              List.find?_cons_of_pos _ hak]
    · calc pyGet ((a :: t) ++ [(f, v)]) k = pyGet (t ++ [(f, v)]) k := by
            unfold pyGet
            rw [List.cons_append,
              show List.find? (fun e => e.1 == k) (a :: (t ++ [(f, v)])) =
                List.find? (fun e => e.1 == k) (t ++ [(f, v)]) from
                List.find?_cons_of_neg _ (by simp [hak])]
        _ = pyGet t k := ih
        _ = pyGet (a :: t) k := by
            unfold pyGet
            rw [show List.find? (fun e => e.1 == k) (a :: t) =
              List.find? (fun e => e.1 == k) t from
              List.find?_cons_of_neg _ (by simp [hak])]

/-- Dict assignment at another key leaves a lookup unchanged. -/
theorem pyGet_pyAssign_ne (p : List (String × PyVal)) (k f : String)
    (v : PyVal) (h : f ≠ k) : pyGet (pyAssign p f v) k = pyGet p k := by
  unfold pyAssign
  by_cases hany : p.any (fun e => e.1 == f) = true
  · rw [if_pos hany]
    exact pyGet_map_replace k f v h p
  · rw [if_neg hany]
    exact pyGet_append_single_ne k f v h p

/-- In-place replacement at a present key makes it the lookup result. -/
theorem pyGet_map_assign_self (k : String) (v : PyVal) :
    ∀ (p : List (String × PyVal)), p.any (fun e => e.1 == k) = true →
    pyGet (p.map fun e => if e.1 == k then (k, v) else e) k = some v := by
  intro p
  induction p with
  | nil => intro hany; simp at hany
  | cons a t ih =>
    intro hany
    by_cases hak : (a.1 == k) = true
    · unfold pyGet
      rw [List.map_cons, if_pos hak,
        show List.find? (fun e => e.1 == k)
            ((k, v) :: t.map fun e => if e.1 == k then (k, v) else e) =
          some (k, v) from List.find?_cons_of_pos _ (by simp)]
    · have htany : t.any (fun e => e.1 == k) = true := by
        simpa [List.any_cons, hak] using hany
      calc pyGet ((a :: t).map fun e => if e.1 == k then (k, v) else e) k
          = pyGet (t.map fun e => if e.1 == k then (k, v) else e) k := by
            unfold pyGet
            rw [List.map_cons, if_neg hak,
              show List.find? (fun e => e.1 == k)
                  (a :: t.map fun e => if e.1 == k then (k, v) else e) =
                List.find? (fun e => e.1 == k)
                  (t.map fun e => if e.1 == k then (k, v) else e) from
                List.find?_cons_of_neg _ (by simp [hak])]
        _ = some v := ih htany

/-- Appending at an absent key makes it the lookup result. -/
theorem pyGet_append_assign_self (k : String) (v : PyVal) :
    ∀ (p : List (String × PyVal)), p.any (fun e => e.1 == k) = false →
    pyGet (p ++ [(k, v)]) k = some v := by
  intro p
  induction p with
  | nil =>
    intro _
    unfold pyGet
    rw [List.nil_append,
      show List.find? (fun e => e.1 == k) [(k, v)] = some (k, v) from
      List.find?_cons_of_pos _ (by simp)]
  | cons a t ih =>
    intro hany
    rw [List.any_cons] at hany
    rcases Bool.or_eq_false_iff.mp hany with ⟨h1, htany⟩
    have hak : ¬(a.1 == k) = true := by simp [h1]
    calc pyGet ((a :: t) ++ [(k, v)]) k = pyGet (t ++ [(k, v)]) k := by
          unfold pyGet
          rw [List.cons_append,
            show List.find? (fun e => e.1 == k) (a :: (t ++ [(k, v)])) =
              List.find? (fun e => e.1 == k) (t ++ [(k, v)]) from
              List.find?_cons_of_neg _ (by simp [hak])]
      _ = some v := ih htany

/-- Dict assignment makes the assigned value the lookup result. -/
theorem pyGet_pyAssign_self (k : String) (v : PyVal) :
    ∀ (p : List (String × PyVal)), pyGet (pyAssign p k v) k = some v := by
  intro p
  unfold pyAssign
  cases hany : p.any (fun e => e.1 == k) with
  | true =>
    rw [if_pos rfl]
    exact pyGet_map_assign_self k v p hany
  | false =>
    rw [if_neg (by simp)]
    exact pyGet_append_assign_self k v p hany

/-- Folded dict assignments at other keys leave a lookup unchanged. -/
theorem pyGet_foldl_assign_ne (gv : String → PyVal) (k : String) :
    ∀ (ffs : List String) (p : List (String × PyVal)),
    (∀ f ∈ ffs, f ≠ k) →
    pyGet (ffs.foldl (fun acc f => pyAssign acc f (gv f)) p) k =
      pyGet p k := by
  intro ffs
  induction ffs with
  | nil => intro p _; rfl
  | cons g t ih =>
    intro p h
    calc pyGet ((g :: t).foldl (fun acc f => pyAssign acc f (gv f)) p) k
        = pyGet (pyAssign p g (gv g)) k :=
          ih (pyAssign p g (gv g)) fun f hf => h f (List.mem_cons_of_mem g hf)
      _ = pyGet p k :=
          pyGet_pyAssign_ne p k g (gv g) (h g (List.mem_cons_self g t))

/-- After folding the dict assignments of a key list, looking up a listed
key yields its assigned value (Python dict semantics: the last assignment
wins, and every assignment of the same key stores the same value). -/
theorem pyGet_foldl_assign_mem (gv : String → PyVal) :
    ∀ (ffs : List String) (p : List (String × PyVal)) (f : String),
    f ∈ ffs →
    pyGet (ffs.foldl (fun acc g => pyAssign acc g (gv g)) p) f =
      some (gv f) := by
  intro ffs
  induction ffs with
  | nil => intro p f hf; exact absurd hf (List.not_mem_nil f)
  | cons g t ih =>
    intro p f hf
    by_cases hft : f ∈ t
    · exact ih (pyAssign p g (gv g)) f hft
    · have hfg : f = g := by
        rcases List.mem_cons.mp hf with h1 | h1
        · exact h1
        · exact absurd h1 hft
      subst hfg
      calc pyGet ((f :: t).foldl (fun acc g => pyAssign acc g (gv g)) p) f
          = pyGet (pyAssign p f (gv f)) f :=
            pyGet_foldl_assign_ne gv f t (pyAssign p f (gv f))
              fun x hx heq => hft (heq ▸ hx)
        _ = some (gv f) := pyGet_pyAssign_self f (gv f) p

/-- Counterexample for C7 as stated.  First: a row whose search-field value
is the integer 0 is skipped by `_prepare_db_point` although its id is
present and its rendered search text is "0", which is not blank after
trimming — contradicting "skipped iff id null/missing or text blank".
Second: a list-valued filter field is stored as a list (with scalar
elements kept), not coerced to a string — contradicting "non-scalar values
coerced to strings". -/
theorem prepare_db_point_claim_counterexample :
    prepare_db_point 7 "s" "postgres" ⟨"public", "docs", "id", "txt", []⟩
      [("id", .vint 1), ("txt", .vint 0)] = none
    ∧ pyStrip (pyStr (rowGetD [("id", .vint 1), ("txt", .vint 0)] "txt")) = "0"
    ∧ rowGetD [("id", .vint 1), ("txt", .vint 0)] "id" = .vint 1
    ∧ prepare_db_point 7 "s" "postgres"
        ⟨"public", "docs", "id", "txt", ["tags"]⟩
        [("id", .vint 2), ("txt", .vstr "hello"),
          ("tags", .vlist [.vint 1])] =
      some ("db:7:2", "hello",
        [("source_id", .vint 7), ("source_name", .vstr "s"),
         ("source_type", .vstr "postgres"), ("source_backend", .vstr "db"),
         ("schema_name", .vstr "public"), ("table_name", .vstr "docs"),
         ("row_id", .vstr "2"), ("tags", .vlist [.vint 1])], "2") := by
  have hid1 : rowGetD [("id", PyVal.vint 1), ("txt", PyVal.vint 0)] "id" =
      PyVal.vint 1 := rfl
  have htxt1 : rowGetD [("id", PyVal.vint 1), ("txt", PyVal.vint 0)] "txt" =
      PyVal.vint 0 := rfl
  have htr1 : pyTruthy (PyVal.vint 0) = false := rfl
  have hempty : pyStrip (pyStr (PyVal.vstr "")) = "" := by
    rw [pyStr_vstr]
    rfl
  have hid2 : rowGetD [("id", PyVal.vint 2), ("txt", PyVal.vstr "hello"),
      ("tags", PyVal.vlist [PyVal.vint 1])] "id" = PyVal.vint 2 := rfl
  have htxt2 : rowGetD [("id", PyVal.vint 2), ("txt", PyVal.vstr "hello"),
      ("tags", PyVal.vlist [PyVal.vint 1])] "txt" = PyVal.vstr "hello" := rfl
  have htags : rowGetD [("id", PyVal.vint 2), ("txt", PyVal.vstr "hello"),
      ("tags", PyVal.vlist [PyVal.vint 1])] "tags" =
      PyVal.vlist [PyVal.vint 1] := rfl
  have htr2 : pyTruthy (PyVal.vstr "hello") = true := rfl
  have hhello : pyStrip (pyStr (PyVal.vstr "hello")) = "hello" := by
    rw [pyStr_vstr]
    rfl
  have h2 : pyStr (PyVal.vint 2) = "2" := (pyStr_vint 2).trans rfl
  have hnorm : normalize_payload_value (PyVal.vlist [PyVal.vint 1]) =
      PyVal.vlist [PyVal.vint 1] := rfl
  refine ⟨?_, ?_, rfl, ?_⟩
  · simp [prepare_db_point, hid1, htxt1, htr1, hempty]
  · rw [htxt1, pyStr_vint]
    rfl
  · simp [prepare_db_point, hid2, htxt2, htr2, hhello, h2, htags, hnorm]
    and_intros <;> rfl

/-- C7 (amended).  DB row point preparation: a streamed row is skipped iff
its id-field value is null or missing, or its search-field value is falsy
(so also for 0, False, or empty containers), or its rendered search text is
blank after trimming; otherwise exactly one point is built whose id is
`db:<source_id>:<row_id>`, whose text is the trimmed rendering of the
search-field value, and whose payload — a dict assigned the reserved keys
first and then each filter field, a colliding filter field overwriting the
reserved entry — yields each declared filter field with its value
normalized (null and scalars unchanged, list elements that are not scalars
rendered as strings, other non-scalar values rendered as strings), and,
provided no declared filter field collides with a reserved payload key,
also the source id, source name, source type, schema name, table name and
row id. -/
theorem prepare_db_point_amended :
    ∀ (source_id : Int) (source_name source_type : String) (sdb : SourceDb)
      (row : Row),
    (prepare_db_point source_id source_name source_type sdb row = none ↔
      (rowGetD row sdb.id_field = .vnone
        ∨ pyTruthy (rowGetD row sdb.search_field) = false
        ∨ pyStrip (pyStr (rowGetD row sdb.search_field)) = ""))
    ∧ (∀ point_id text payload row_id,
      prepare_db_point source_id source_name source_type sdb row =
        some (point_id, text, payload, row_id) →
      point_id = "db:" ++ toString source_id ++ ":" ++ row_id
      ∧ row_id = pyStr (rowGetD row sdb.id_field)
      ∧ text = pyStrip (pyStr (rowGetD row sdb.search_field))
      ∧ ((∀ f ∈ sdb.filter_fields, f ∉ reservedPayloadKeys) →
        pyGet payload "source_id" = some (.vint source_id)
        ∧ pyGet payload "source_name" = some (.vstr source_name)
        ∧ pyGet payload "source_type" = some (.vstr source_type)
        ∧ pyGet payload "schema_name" = some (.vstr sdb.schema_name)
        ∧ pyGet payload "table_name" = some (.vstr sdb.table_name)
        ∧ pyGet payload "row_id" = some (.vstr row_id))
      ∧ (∀ f ∈ sdb.filter_fields,
        pyGet payload f =
          some (normalize_payload_value (rowGetD row f)))) := by
  intro source_id source_name source_type sdb row
  have htrim : pyStrip "" = "" := rfl
  constructor
  · cases hid : rowGetD row sdb.id_field with
    | vnone => simp [prepare_db_point, hid]
    | vbool b =>
      by_cases htr : pyTruthy (rowGetD row sdb.search_field) = true
      · by_cases hbl : pyStrip (pyStr (rowGetD row sdb.search_field)) = ""
        · simp [prepare_db_point, hid, htr, hbl]
        · simp [prepare_db_point, hid, htr, hbl]
      · simp [prepare_db_point, hid, htr, pyStr, htrim]
    | vint i =>
      by_cases htr : pyTruthy (rowGetD row sdb.search_field) = true
      · by_cases hbl : pyStrip (pyStr (rowGetD row sdb.search_field)) = ""
        · simp [prepare_db_point, hid, htr, hbl]
        · simp [prepare_db_point, hid, htr, hbl]
      · simp [prepare_db_point, hid, htr, pyStr, htrim]
    | vstr s =>
      by_cases htr : pyTruthy (rowGetD row sdb.search_field) = true
      · by_cases hbl : pyStrip (pyStr (rowGetD row sdb.search_field)) = ""
        · simp [prepare_db_point, hid, htr, hbl]
        · simp [prepare_db_point, hid, htr, hbl]
      · simp [prepare_db_point, hid, htr, pyStr, htrim]
    | vlist xs =>
      by_cases htr : pyTruthy (rowGetD row sdb.search_field) = true
      · by_cases hbl : pyStrip (pyStr (rowGetD row sdb.search_field)) = ""
        · simp [prepare_db_point, hid, htr, hbl]
        · simp [prepare_db_point, hid, htr, hbl]
      · simp [prepare_db_point, hid, htr, pyStr, htrim]
    | vother r =>
      by_cases htr : pyTruthy (rowGetD row sdb.search_field) = true
      · by_cases hbl : pyStrip (pyStr (rowGetD row sdb.search_field)) = ""
        · simp [prepare_db_point, hid, htr, hbl]
        · simp [prepare_db_point, hid, htr, hbl]
      · simp [prepare_db_point, hid, htr, pyStr, htrim]
  · intro point_id text payload row_id hsome
    have hexp : prepare_db_point source_id source_name source_type sdb row =
        some ("db:" ++ toString source_id ++ ":" ++
            pyStr (rowGetD row sdb.id_field),
          pyStrip (pyStr (rowGetD row sdb.search_field)),
          sdb.filter_fields.foldl
            (fun acc filter_field =>
              pyAssign acc filter_field
                (normalize_payload_value (rowGetD row filter_field)))
            [("source_id", .vint source_id),
             ("source_name", .vstr source_name),
             ("source_type", .vstr source_type),
             ("source_backend", .vstr "db"),
             ("schema_name", .vstr sdb.schema_name),
             ("table_name", .vstr sdb.table_name),
             ("row_id", .vstr (pyStr (rowGetD row sdb.id_field)))],
          pyStr (rowGetD row sdb.id_field)) := by
      cases hid : rowGetD row sdb.id_field with
      | vnone => simp [prepare_db_point, hid] at hsome
      | vbool b =>
        by_cases htr : pyTruthy (rowGetD row sdb.search_field) = true
        · by_cases hbl : pyStrip (pyStr (rowGetD row sdb.search_field)) = ""
          · simp [prepare_db_point, hid, htr, hbl] at hsome
          · simp [prepare_db_point, hid, htr, hbl]
        · simp [prepare_db_point, hid, htr, pyStr, htrim] at hsome
      | vint i =>
        by_cases htr : pyTruthy (rowGetD row sdb.search_field) = true
        · by_cases hbl : pyStrip (pyStr (rowGetD row sdb.search_field)) = ""
          · simp [prepare_db_point, hid, htr, hbl] at hsome
          · simp [prepare_db_point, hid, htr, hbl]
        · simp [prepare_db_point, hid, htr, pyStr, htrim] at hsome
      | vstr s =>
        by_cases htr : pyTruthy (rowGetD row sdb.search_field) = true
        · by_cases hbl : pyStrip (pyStr (rowGetD row sdb.search_field)) = ""
          · simp [prepare_db_point, hid, htr, hbl] at hsome
          · simp [prepare_db_point, hid, htr, hbl]
        · simp [prepare_db_point, hid, htr, pyStr, htrim] at hsome
      | vlist xs =>
        by_cases htr : pyTruthy (rowGetD row sdb.search_field) = true
        · by_cases hbl : pyStrip (pyStr (rowGetD row sdb.search_field)) = ""
          · simp [prepare_db_point, hid, htr, hbl] at hsome
          · simp [prepare_db_point, hid, htr, hbl]
        · simp [prepare_db_point, hid, htr, pyStr, htrim] at hsome
      | vother r =>
        by_cases htr : pyTruthy (rowGetD row sdb.search_field) = true
        · by_cases hbl : pyStrip (pyStr (rowGetD row sdb.search_field)) = ""
          · simp [prepare_db_point, hid, htr, hbl] at hsome
          · simp [prepare_db_point, hid, htr, hbl]
        · simp [prepare_db_point, hid, htr, pyStr, htrim] at hsome
    rw [hexp] at hsome
    simp only [Option.some.injEq, Prod.mk.injEq] at hsome
    obtain ⟨h1, h2, h3, h4⟩ := hsome
    subst h1
    subst h2
    subst h4
    rw [← h3]
    refine ⟨rfl, rfl, rfl, ?_, ?_⟩
    · intro hres
      have hne : ∀ k ∈ reservedPayloadKeys,
          ∀ f ∈ sdb.filter_fields, f ≠ k := by
        intro k hk f hf heq
        exact hres f hf (heq ▸ hk)
      refine ⟨?_, ?_, ?_, ?_, ?_, ?_⟩
      · rw [pyGet_foldl_assign_ne _ "source_id" sdb.filter_fields _
          (hne "source_id" (by decide))]
        rfl
      · rw [pyGet_foldl_assign_ne _ "source_name" sdb.filter_fields _
          (hne "source_name" (by decide))]
        rfl
      · rw [pyGet_foldl_assign_ne _ "source_type" sdb.filter_fields _
          (hne "source_type" (by decide))]
        rfl
      · rw [pyGet_foldl_assign_ne _ "schema_name" sdb.filter_fields _
          (hne "schema_name" (by decide))]
        rfl
      · rw [pyGet_foldl_assign_ne _ "table_name" sdb.filter_fields _
          (hne "table_name" (by decide))]
        rfl
      · rw [pyGet_foldl_assign_ne _ "row_id" sdb.filter_fields _
          (hne "row_id" (by decide))]
        rfl
    · intro f hf
      exact pyGet_foldl_assign_mem
        (fun g => normalize_payload_value (rowGetD row g))
        sdb.filter_fields _ f hf

/-- Witness for C7 at a concrete row: the payload description holds on a
prepared row with a non-colliding, list-valued filter field. -/
theorem prepare_db_point_amended_witness :
    pyGet [("source_id", .vint 7), ("source_name", .vstr "s"),
        ("source_type", .vstr "postgres"), ("source_backend", .vstr "db"),
        ("schema_name", .vstr "public"), ("table_name", .vstr "docs"),
        ("row_id", .vstr "2"), ("tags", .vlist [.vint 1])] "source_id" =
      some (.vint 7)
    ∧ pyGet [("source_id", .vint 7), ("source_name", .vstr "s"),
        ("source_type", .vstr "postgres"), ("source_backend", .vstr "db"),
        ("schema_name", .vstr "public"), ("table_name", .vstr "docs"),
        ("row_id", .vstr "2"), ("tags", .vlist [.vint 1])] "tags" =
      some (normalize_payload_value
        (rowGetD [("id", .vint 2), ("txt", .vstr "hello"),
          ("tags", .vlist [.vint 1])] "tags")) := by
  have hid2 : rowGetD [("id", PyVal.vint 2), ("txt", PyVal.vstr "hello"),
      ("tags", PyVal.vlist [PyVal.vint 1])] "id" = PyVal.vint 2 := rfl
  have htxt2 : rowGetD [("id", PyVal.vint 2), ("txt", PyVal.vstr "hello"),
      ("tags", PyVal.vlist [PyVal.vint 1])] "txt" = PyVal.vstr "hello" := rfl
  have htags : rowGetD [("id", PyVal.vint 2), ("txt", PyVal.vstr "hello"),
      ("tags", PyVal.vlist [PyVal.vint 1])] "tags" =
      PyVal.vlist [PyVal.vint 1] := rfl
  have htr2 : pyTruthy (PyVal.vstr "hello") = true := rfl
  have hhello : pyStrip (pyStr (PyVal.vstr "hello")) = "hello" := by
    rw [pyStr_vstr]
    rfl
  have h2 : pyStr (PyVal.vint 2) = "2" := (pyStr_vint 2).trans rfl
  have hnorm : normalize_payload_value (PyVal.vlist [PyVal.vint 1]) =
      PyVal.vlist [PyVal.vint 1] := rfl
  have hsome : prepare_db_point 7 "s" "postgres"
      ⟨"public", "docs", "id", "txt", ["tags"]⟩
      [("id", .vint 2), ("txt", .vstr "hello"),
        ("tags", .vlist [.vint 1])] =
      some ("db:7:2", "hello",
        [("source_id", .vint 7), ("source_name", .vstr "s"),
         ("source_type", .vstr "postgres"), ("source_backend", .vstr "db"),
         ("schema_name", .vstr "public"), ("table_name", .vstr "docs"),
         ("row_id", .vstr "2"), ("tags", .vlist [.vint 1])], "2") := by
    simp [prepare_db_point, hid2, htxt2, htr2, hhello, h2, htags, hnorm,
      pyAssign]
    rfl
  have happ := (prepare_db_point_amended 7 "s" "postgres"
      ⟨"public", "docs", "id", "txt", ["tags"]⟩
      [("id", .vint 2), ("txt", .vstr "hello"),
        ("tags", .vlist [.vint 1])]).2
    "db:7:2" "hello"
    [("source_id", .vint 7), ("source_name", .vstr "s"),
     ("source_type", .vstr "postgres"), ("source_backend", .vstr "db"),
     ("schema_name", .vstr "public"), ("table_name", .vstr "docs"),
     ("row_id", .vstr "2"), ("tags", .vlist [.vint 1])] "2"
    hsome
  exact ⟨(happ.2.2.2.1 (by decide)).1, happ.2.2.2.2 "tags" (by decide)⟩

/-- Invariant preservation over a fold. -/
theorem foldl_preserve {α β : Type} (P : α → Prop) (f : α → β → α)
    (hstep : ∀ a b, P a → P (f a b)) :
    ∀ (l : List β) (a : α), P a → P (l.foldl f a) := by
  intro l
  induction l with
  | nil => intro a ha; exact ha
  | cons b t ih => intro a ha; exact ih (f a b) (hstep a b ha)

/-- The length of a Python slice is bounded by the slice size. -/
theorem pySlice_length_le (s : String) (n : Nat) :
    (pySlice s n).length ≤ n := by
  unfold pySlice
  calc ((s.toList.take n).asString).length = (s.toList.take n).length := rfl
    _ ≤ n := List.length_take_le n s.toList

/-- Invariant carried by the digest accumulator: the header is the first
line, the total number of lines stays within the sample limit, and every
line after the header is a row line with a bounded preview. -/
def digestInv (source_name : String) (source_db : SourceDb)
    (acc : List String) : Prop :=
  acc.head? = some (build_db_summary_header source_name source_db)
  ∧ acc.length ≤ DB_SUMMARY_SAMPLE_LIMIT
  ∧ ∀ line ∈ acc.tail, ∃ rid preview,
      line = "row " ++ rid ++ ": " ++ preview
      ∧ preview.length ≤ DB_SUMMARY_TEXT_PREVIEW_LENGTH

/-- One digest step preserves the invariant. -/
theorem digestStep_preserve (source_id : Int)
    (source_name source_type : String) (source_db : SourceDb)
    (acc : List String) (row : Row)
    (h : digestInv source_name source_db acc) :
    digestInv source_name source_db
      (digestStep source_id source_name source_type source_db acc row) := by
  obtain ⟨hhead, hlen, hform⟩ := h
  cases hp : prepare_db_point source_id source_name source_type source_db
      row with
  | none =>
    simp only [digestStep, hp]
    exact ⟨hhead, hlen, hform⟩
  | some point =>
    obtain ⟨pid, text, payload, rid⟩ := point
    simp only [digestStep, hp]
    by_cases hcap : acc.length < DB_SUMMARY_SAMPLE_LIMIT
    · rw [if_pos hcap]
      cases acc with
      | nil => simp at hhead
      | cons first rest =>
        refine ⟨by simpa using hhead, by simpa using hcap, ?_⟩
        intro line hline
        simp only [List.cons_append, List.tail_cons, List.mem_append,
          List.mem_singleton] at hline
        rcases hline with hold | rfl
        · exact hform line (by simpa using hold)
        · exact ⟨rid, pySlice text DB_SUMMARY_TEXT_PREVIEW_LENGTH, rfl,
            pySlice_length_le text DB_SUMMARY_TEXT_PREVIEW_LENGTH⟩
    · rw [if_neg hcap]
      exact ⟨hhead, hlen, hform⟩

/-- C8.  Bounded DB digest: for every sequence of streamed row batches, the
digest is the header line first, in total at most the fixed sample limit of
lines, and every line after the header has the form
`"row <id>: <preview>"` with the preview truncated to the fixed preview
length — regardless of how many rows the table yields. -/
theorem db_digest_bounded :
    ∀ (source_id : Int) (source_name source_type : String)
      (source_db : SourceDb) (batches : List (List Row)),
      (db_digest source_id source_name source_type source_db
          batches).head? =
        some (build_db_summary_header source_name source_db)
      ∧ (db_digest source_id source_name source_type source_db
          batches).tail.length < DB_SUMMARY_SAMPLE_LIMIT
      ∧ ∀ line ∈ (db_digest source_id source_name source_type source_db
          batches).tail,
          ∃ rid preview, line = "row " ++ rid ++ ": " ++ preview
            ∧ preview.length ≤ DB_SUMMARY_TEXT_PREVIEW_LENGTH := by
  intro source_id source_name source_type source_db batches
  have hinv : digestInv source_name source_db
      (db_digest source_id source_name source_type source_db batches) := by
    unfold db_digest
    refine foldl_preserve _ _ ?_ batches _
      ⟨rfl, by simp [DB_SUMMARY_SAMPLE_LIMIT], by simp⟩
    intro acc batch hacc
    exact foldl_preserve _ _
      (fun a r ha =>
        digestStep_preserve source_id source_name source_type source_db
          a r ha) batch acc hacc
  obtain ⟨hhead, hlen, hform⟩ := hinv
  refine ⟨hhead, ?_, hform⟩
  cases hd : db_digest source_id source_name source_type source_db
      batches with
  | nil => rw [hd] at hhead; simp at hhead
  | cons first rest =>
    rw [hd] at hlen
    simp only [List.tail_cons, List.length_cons] at hlen ⊢
    omega

/-- Witness for C8 at a concrete batch list: the single produced row line
has the required form. -/
theorem db_digest_bounded_witness :
    ∃ rid preview, "row 1: hello" = "row " ++ rid ++ ": " ++ preview
      ∧ preview.length ≤ DB_SUMMARY_TEXT_PREVIEW_LENGTH := by
  have hdig : db_digest 7 "s" "postgres" ⟨"public", "docs", "id", "txt", []⟩
      [[[("id", PyVal.vint 1), ("txt", PyVal.vstr "hello")]]] =
      [build_db_summary_header "s" ⟨"public", "docs", "id", "txt", []⟩,
        "row 1: hello"] := by
    have hid : rowGetD [("id", PyVal.vint 1), ("txt", PyVal.vstr "hello")]
        "id" = PyVal.vint 1 := rfl
    have htxt : rowGetD [("id", PyVal.vint 1), ("txt", PyVal.vstr "hello")]
        "txt" = PyVal.vstr "hello" := rfl
    have htr : pyTruthy (PyVal.vstr "hello") = true := rfl
    have hhello : pyStrip (pyStr (PyVal.vstr "hello")) = "hello" := by
      rw [pyStr_vstr]
      rfl
    have h1 : pyStr (PyVal.vint 1) = "1" := (pyStr_vint 1).trans rfl
    simp [db_digest, digestStep, prepare_db_point, hid, htxt, htr, hhello,
      h1, DB_SUMMARY_SAMPLE_LIMIT]
    rfl
  exact (db_digest_bounded 7 "s" "postgres"
      ⟨"public", "docs", "id", "txt", []⟩
      [[[("id", PyVal.vint 1), ("txt", PyVal.vstr "hello")]]]).2.2
    "row 1: hello" (by rw [hdig]; simp)

/-- C10.  Upsert input guard: unequal input lengths fail with a ValueError
before any effect (the error result carries no embedding, collection or
store effect), and equal-length empty input is an immediate no-op with no
effect at all. -/
theorem upsert_chunks_guards :
    (∀ (collection : String) (ids texts : List String)
      (payloads : List (List (String × PyVal))),
      (ids.length ≠ texts.length ∨ ids.length ≠ payloads.length) →
      upsert_chunks collection ids texts payloads =
        .error "ids, texts and payloads must have the same length")
    ∧ (∀ (collection : String) (ids texts : List String)
      (payloads : List (List (String × PyVal))),
      ids.length = texts.length → ids.length = payloads.length →
      ids = [] →
      upsert_chunks collection ids texts payloads = .ok []) := by
  constructor
  · intro collection ids texts payloads h
    simp [upsert_chunks, h]
  · intro collection ids texts payloads h1 h2 h3
    subst h3
    simp [upsert_chunks, h1.symm, h2.symm]

/-- Witness for C10 at concrete inputs. -/
theorem upsert_chunks_guards_witness :
    upsert_chunks "c" ["a"] [] [] =
      .error "ids, texts and payloads must have the same length"
    ∧ upsert_chunks "c" [] [] [] = .ok [] :=
  ⟨upsert_chunks_guards.1 "c" ["a"] [] [] (by simp),
   upsert_chunks_guards.2 "c" [] [] [] rfl rfl rfl⟩

end RagSystem
